import Mathlib

/-!
Verification of the resume-parser core (schema normalization, coverage
verification, basic-info extraction, section-header detection, parser
registry) against its natural-language specification.

The JavaScript source is shallowly embedded: JS values are modelled by
the inductive type `JVal` (strings are lists of characters), property
access on `null`/`undefined` raises, so fallible code lives in
`Except String`.  All definitions are executable and translated
directly from the source files.
-/

namespace JSRP

/-- Model of a JavaScript value as produced/consumed by the parsers:
`undefined`, `null`, booleans, strings (as `List Char`), arrays and
objects (ordered key-value lists, keys unique in all objects the code
builds). -/
inductive JVal where
  | undefV : JVal
  | jnull : JVal
  | jbool : Bool → JVal
  | jstr  : List Char → JVal
  | jarr  : List JVal → JVal
  | jobj  : List (String × JVal) → JVal

/-- JS truthiness: `undefined`, `null`, `false` and `""` are falsy;
arrays and objects (including `[]` and `{}`) are truthy. -/
def truthy : JVal → Bool
  | .undefV   => false
  | .jnull   => false
  | .jbool b => b
  | .jstr s  => !s.isEmpty
  | .jarr _  => true
  | .jobj _  => true

/-- Test for `undefined`. -/
def isUndefB : JVal → Bool
  | .undefV => true
  | _      => false

/-- Test for `value === undefined || value === null`. -/
def isUndefOrNull : JVal → Bool
  | .undefV => true
  | .jnull => true
  | _      => false

/-- `Array.isArray`. -/
def isArrB : JVal → Bool
  | .jarr _ => true
  | _       => false

/-- Own-property lookup in an object's field list (first occurrence);
absent keys read as `undefined`. -/
def lookupF : List (String × JVal) → String → JVal
  | [], _ => .undefV
  | (k, v) :: fs, f => if k = f then v else lookupF fs f

/-- JS property read `x[f]`: on objects an own-property lookup, on
`null`/`undefined` a `TypeError`, on other primitives `undefined`
(none of the field names used here is a built-in property). -/
def getField : JVal → String → Except String JVal
  | .jobj fs, f => .ok (lookupF fs f)
  | .undefV, _ => .error "TypeError: cannot read properties of undefined"
  | .jnull, _ => .error "TypeError: cannot read properties of null"
  | _, _ => .ok .undefV

/-- Assign a field in a field list: replace the first occurrence of the
key, or append the key at the end (JS insertion order). -/
def setF : List (String × JVal) → String → JVal → List (String × JVal)
  | [], f, v => [(f, v)]
  | (k, w) :: fs, f, v => if k = f then (k, v) :: fs else (k, w) :: setF fs f v

/-- JS property write `x[f] = v`: updates objects; on other values it is
a silent no-op (sloppy mode; the code never writes to `null` here). -/
def setField : JVal → String → JVal → JVal
  | .jobj fs, f, v => .jobj (setF fs f v)
  | x, _, _ => x

/-- Whether an object value has the given field (with a non-`undefined`
value); non-objects have none. -/
def hasField (x : JVal) (f : String) : Bool :=
  match x with
  | .jobj fs => !(isUndefB (lookupF fs f))
  | _ => false

/-- Read a field of an object, `undefined` otherwise (pure variant of
`getField` for stating properties of already-built records). -/
def fieldOf (x : JVal) (f : String) : JVal :=
  match x with
  | .jobj fs => lookupF fs f
  | _ => .undefV

/-- Effectful map over a list (the embedding of a `for`/`map` loop whose
body can raise), stopping at the first error. -/
def mapE (f : α → Except String β) : List α → Except String (List β)
  | [] => .ok []
  | a :: l => do
    let b ← f a
    let bs ← mapE f l
    pure (b :: bs)

@[simp] theorem mapE_nil (f : α → Except String β) : mapE f [] = .ok [] := rfl

@[simp] theorem mapE_cons (f : α → Except String β) (a : α) (l : List α) :
    mapE f (a :: l) =
      f a >>= fun b => mapE f l >>= fun bs => pure (b :: bs) := rfl

theorem bind_ok_inv {x : Except String α} {f : α → Except String β} {r : β}
    (h : (x >>= f) = .ok r) : ∃ a, x = .ok a ∧ f a = .ok r := by
  cases x with
  | ok a => exact ⟨a, rfl, h⟩
  | error e => simp [Bind.bind, Except.bind] at h

theorem mapE_stable {f : α → Except String α} {l : List α}
    (h : ∀ a ∈ l, f a = .ok a) : mapE f l = .ok l := by
  induction l with
  | nil => rfl
  | cons a l ih =>
    simp only [mapE_cons, h a (List.mem_cons_self a l),
      ih (fun b hb => h b (List.mem_cons_of_mem a hb))]
    rfl

theorem mapE_ok_mem {f : α → Except String β} {l : List α} {ys : List β}
    (h : mapE f l = .ok ys) : ∀ y ∈ ys, ∃ a, a ∈ l ∧ f a = .ok y := by
  induction l generalizing ys with
  | nil =>
    simp only [mapE_nil, Except.ok.injEq] at h
    subst h; intro y hy; cases hy
  | cons a l ih =>
    simp only [mapE_cons] at h
    obtain ⟨b, hb, h2⟩ := bind_ok_inv h
    obtain ⟨bs, hbs, h3⟩ := bind_ok_inv h2
    simp only [pure, Except.pure, Except.ok.injEq] at h3
    subst h3
    intro y hy
    rcases List.mem_cons.mp hy with rfl | hy'
    · exact ⟨a, List.mem_cons_self a l, hb⟩
    · obtain ⟨a', ha', hfa'⟩ := ih hbs y hy'
      exact ⟨a', List.mem_cons_of_mem a ha', hfa'⟩

theorem mapE_ok_length {f : α → Except String β} {l : List α} {ys : List β}
    (h : mapE f l = .ok ys) : ys.length = l.length := by
  induction l generalizing ys with
  | nil => simp only [mapE_nil, Except.ok.injEq] at h; subst h; rfl
  | cons a l ih =>
    simp only [mapE_cons] at h
    obtain ⟨b, _, h2⟩ := bind_ok_inv h
    obtain ⟨bs, hbs, h3⟩ := bind_ok_inv h2
    simp only [pure, Except.pure, Except.ok.injEq] at h3
    subst h3
    simp [ih hbs]

/-! ## The resume schema (src/parsers/schema.js) -/

/-- The two field types occurring in the schema literal ("string" and
"array"). -/
inductive TType where
  | tstr : TType
  | tarr : TType
  deriving DecidableEq

/-- A rule for a field of an array item (`itemSchema` entry). -/
structure IRule where
  rtype : TType
  required : Bool

/-- A rule for a top-level schema field. -/
structure Rule where
  rtype : TType
  required : Bool
  itemSchema : Option (List (String × IRule)) := none

/-- `itemSchema` of the `experience` field. -/
def experienceItemSchema : List (String × IRule) :=
  [("title", ⟨.tstr, false⟩), ("position", ⟨.tstr, false⟩),
   ("company", ⟨.tstr, false⟩), ("location", ⟨.tstr, false⟩),
   ("period", ⟨.tstr, false⟩), ("responsibilities", ⟨.tarr, true⟩),
   ("description", ⟨.tarr, false⟩)]

/-- `itemSchema` of the `education` field. -/
def educationItemSchema : List (String × IRule) :=
  [("degree", ⟨.tstr, false⟩), ("institution", ⟨.tstr, false⟩),
   ("location", ⟨.tstr, false⟩), ("period", ⟨.tstr, false⟩),
   ("details", ⟨.tarr, true⟩)]

/-- `itemSchema` of the `projects` field. -/
def projectsItemSchema : List (String × IRule) :=
  [("name", ⟨.tstr, true⟩), ("timeframe", ⟨.tstr, false⟩),
   ("link", ⟨.tstr, false⟩), ("description", ⟨.tarr, true⟩)]

/-- `itemSchema` of the `honors` field. -/
def honorsItemSchema : List (String × IRule) :=
  [("title", ⟨.tstr, true⟩), ("date", ⟨.tstr, false⟩),
   ("description", ⟨.tarr, true⟩)]

/-- The `resumeSchema` literal, in declaration order. -/
def resumeSchemaL : List (String × Rule) :=
  [("name", ⟨.tstr, true, none⟩), ("title", ⟨.tstr, false, none⟩),
   ("email", ⟨.tstr, true, none⟩), ("phone", ⟨.tstr, true, none⟩),
   ("linkedin", ⟨.tstr, false, none⟩), ("github", ⟨.tstr, false, none⟩),
   ("address", ⟨.tstr, false, none⟩), ("location", ⟨.tstr, false, none⟩),
   ("summary", ⟨.tstr, false, none⟩),
   ("experience", ⟨.tarr, true, some experienceItemSchema⟩),
   ("education", ⟨.tarr, true, some educationItemSchema⟩),
   ("skills", ⟨.tarr, true, none⟩),
   ("languages", ⟨.tarr, false, none⟩),
   ("certifications", ⟨.tarr, false, none⟩),
   ("projects", ⟨.tarr, false, some projectsItemSchema⟩),
   ("honors", ⟨.tarr, false, some honorsItemSchema⟩),
   ("references", ⟨.tarr, false, none⟩)]

/-- Type-appropriate default for a required-but-absent field. -/
def defaultFor : TType → JVal
  | .tarr => .jarr []
  | .tstr => .jstr []

/-- Normalization of one field of an array item, given the item rule and
the read value (`validateAndNormalize`, inner loop body). -/
def normIF (ir : IRule) (v : JVal) : JVal :=
  if ir.required && isUndefOrNull v then defaultFor ir.rtype
  else
    match ir.rtype, v with
    | .tarr, .jarr l => .jarr l
    | .tarr, w => if truthy w then .jarr [w] else .jarr []
    | .tstr, w => if isUndefB w then .jstr [] else w

/-- Body of the item-field loop: read one declared item field off the
item (a property read, which raises on `null`) and normalize it. -/
def normItemField (item : JVal) (fr : String × IRule) :
    Except String (String × JVal) := do
  let v ← getField item fr.1
  pure (fr.1, normIF fr.2 v)

/-- Normalization of one array item against an item schema
(`value.map((item) => ...)` body). -/
def normalizeItem (isch : List (String × IRule)) (item : JVal) :
    Except String JVal := do
  let pairs ← mapE (normItemField item) isch
  pure (.jobj pairs)

/-- Normalization of one top-level field given its rule and the read
value (`validateAndNormalize`, outer loop body). -/
def normTop (r : Rule) (v : JVal) : Except String JVal :=
  if r.required && isUndefOrNull v then pure (defaultFor r.rtype)
  else
    match r.rtype with
    | .tarr =>
      match v with
      | .jarr items =>
        match r.itemSchema with
        | some isch => do
          let out ← mapE (normalizeItem isch) items
          pure (.jarr out)
        | none => pure (.jarr items)
      | _ => pure (.jarr [])
    | .tstr => pure (if isUndefB v then .jstr [] else v)

/-- The per-entry part of the parser-specific normalization pass at the
end of `validateAndNormalize`: fill `responsibilities` from
`description` when `responsibilities` is falsy, and `position` from
`title` when `position` is falsy. -/
def synonymExp (exp : JVal) : Except String JVal := do
  let resp ← getField exp "responsibilities"
  let desc ← getField exp "description"
  let exp1 :=
    if !truthy resp && truthy desc then setField exp "responsibilities" desc
    else if !truthy resp then setField exp "responsibilities" (.jarr [])
    else exp
  let pos ← getField exp1 "position"
  let ttl ← getField exp1 "title"
  pure (
    if !truthy pos && truthy ttl then setField exp1 "position" ttl
    else if !truthy pos then setField exp1 "position" (.jstr [])
    else exp1)

/-- The `result.experience && Array.isArray(result.experience)` guarded
forEach at the end of `validateAndNormalize`. -/
def synonymPass (res : JVal) : Except String JVal := do
  let e ← getField res "experience"
  match e with
  | .jarr l =>
    if truthy (JVal.jarr l) then do
      let l' ← mapE synonymExp l
      pure (setField res "experience" (.jarr l'))
    else pure res
  | _ => pure res

/-- Body of the outer `for` loop of `validateAndNormalize`: read one
schema-declared field off the input and normalize it by its rule. -/
def normField (pd : JVal) (fr : String × Rule) :
    Except String (String × JVal) := do
  let v ← getField pd fr.1
  let nv ← normTop fr.2 v
  pure (fr.1, nv)

/-- `validateAndNormalize` from src/parsers/schema.js: build the result
by normalizing every schema-declared field of the input (fields outside
the schema are never copied), then run the synonym pass over the
experience entries. -/
def validateAndNormalize (pd : JVal) : Except String JVal := do
  let pairs ← mapE (normField pd) resumeSchemaL
  synonymPass (.jobj pairs)

/-! ## Shape and stability lemmas for the normalizer -/

theorem normIF_str_opt_out (v : JVal) :
    isUndefB (normIF ⟨.tstr, false⟩ v) = false := by
  cases v <;> simp [normIF, isUndefB, isUndefOrNull, defaultFor]

theorem normIF_str_req_out (v : JVal) :
    isUndefOrNull (normIF ⟨.tstr, true⟩ v) = false := by
  cases v <;> simp [normIF, isUndefB, isUndefOrNull, defaultFor]

theorem normIF_arr_out (req : Bool) (v : JVal) :
    isArrB (normIF ⟨.tarr, req⟩ v) = true := by
  cases req <;> cases v <;>
    first
      | rfl
      | (rename_i x; cases x <;> rfl)

theorem normIF_str_opt_fixed {v : JVal} (h : isUndefB v = false) :
    normIF ⟨.tstr, false⟩ v = v := by
  cases v <;> simp_all [normIF, isUndefB, isUndefOrNull]

theorem normIF_str_req_fixed {v : JVal} (h : isUndefOrNull v = false) :
    normIF ⟨.tstr, true⟩ v = v := by
  cases v <;> simp_all [normIF, isUndefB, isUndefOrNull]

theorem normIF_arr_fixed (req : Bool) (l : List JVal) :
    normIF ⟨.tarr, req⟩ (.jarr l) = .jarr l := by
  cases req <;> rfl

/-- Shape of a normalized `experience` entry: exactly the item-schema
fields in order, scalar fields never `undefined`, array fields actual
arrays. -/
def StableExpItem (e : JVal) : Prop :=
  ∃ t ps c loc per resp desc,
    e = .jobj [("title", t), ("position", ps), ("company", c),
               ("location", loc), ("period", per),
               ("responsibilities", resp), ("description", desc)] ∧
    isUndefB t = false ∧ isUndefB ps = false ∧ isUndefB c = false ∧
    isUndefB loc = false ∧ isUndefB per = false ∧
    isArrB resp = true ∧ isArrB desc = true

/-- Shape of a normalized `education` entry. -/
def StableEduItem (e : JVal) : Prop :=
  ∃ d ins loc per det,
    e = .jobj [("degree", d), ("institution", ins), ("location", loc),
               ("period", per), ("details", det)] ∧
    isUndefB d = false ∧ isUndefB ins = false ∧ isUndefB loc = false ∧
    isUndefB per = false ∧ isArrB det = true

/-- Shape of a normalized `projects` entry. -/
def StableProjItem (e : JVal) : Prop :=
  ∃ n tf lk d,
    e = .jobj [("name", n), ("timeframe", tf), ("link", lk),
               ("description", d)] ∧
    isUndefOrNull n = false ∧ isUndefB tf = false ∧ isUndefB lk = false ∧
    isArrB d = true

/-- Shape of a normalized `honors` entry. -/
def StableHonItem (e : JVal) : Prop :=
  ∃ t d ds,
    e = .jobj [("title", t), ("date", d), ("description", ds)] ∧
    isUndefOrNull t = false ∧ isUndefB d = false ∧ isArrB ds = true

theorem mapE_ok_forall2 {f : α → Except String β} {l : List α} {ys : List β}
    (h : mapE f l = .ok ys) :
    List.Forall₂ (fun a b => f a = .ok b) l ys := by
  induction l generalizing ys with
  | nil =>
    simp only [mapE_nil, Except.ok.injEq] at h
    subst h; exact List.Forall₂.nil
  | cons a l ih =>
    simp only [mapE_cons] at h
    obtain ⟨b, hb, h2⟩ := bind_ok_inv h
    obtain ⟨bs, hbs, h3⟩ := bind_ok_inv h2
    simp only [pure, Except.pure, Except.ok.injEq] at h3
    subst h3
    exact List.Forall₂.cons hb (ih hbs)

theorem gfield_ok_inv {a : JVal} {f : String} {ir : IRule} {kv : String × JVal}
    (h : (getField a f >>= fun v => pure (f, normIF ir v)) = .ok kv) :
    ∃ w, getField a f = .ok w ∧ kv = (f, normIF ir w) := by
  obtain ⟨w, hw, h2⟩ := bind_ok_inv h
  simp only [pure, Except.pure, Except.ok.injEq] at h2
  exact ⟨w, hw, h2.symm⟩

theorem normalizeItem_ok_inv {isch : List (String × IRule)} {a e : JVal}
    (h : normalizeItem isch a = .ok e) :
    ∃ pairs, e = .jobj pairs ∧
      List.Forall₂ (fun (fr : String × IRule) (kv : String × JVal) =>
        ∃ w, getField a fr.1 = .ok w ∧ kv = (fr.1, normIF fr.2 w)) isch pairs := by
  unfold normalizeItem at h
  obtain ⟨pairs, hpairs, hpure⟩ := bind_ok_inv h
  simp only [pure, Except.pure, Except.ok.injEq] at hpure
  refine ⟨pairs, hpure.symm, ?_⟩
  have hf := mapE_ok_forall2 hpairs
  exact List.Forall₂.imp (fun _ _ hab => gfield_ok_inv hab) hf

theorem normalizeItemExp_out {a e : JVal}
    (h : normalizeItem experienceItemSchema a = .ok e) : StableExpItem e := by
  obtain ⟨pairs, rfl, hf⟩ := normalizeItem_ok_inv h
  simp only [experienceItemSchema] at hf
  rcases hf with _ | ⟨⟨w1, _, rfl⟩, hf⟩
  rcases hf with _ | ⟨⟨w2, _, rfl⟩, hf⟩
  rcases hf with _ | ⟨⟨w3, _, rfl⟩, hf⟩
  rcases hf with _ | ⟨⟨w4, _, rfl⟩, hf⟩
  rcases hf with _ | ⟨⟨w5, _, rfl⟩, hf⟩
  rcases hf with _ | ⟨⟨w6, _, rfl⟩, hf⟩
  rcases hf with _ | ⟨⟨w7, _, rfl⟩, hf⟩
  cases hf
  exact ⟨_, _, _, _, _, _, _, rfl, normIF_str_opt_out _, normIF_str_opt_out _,
    normIF_str_opt_out _, normIF_str_opt_out _, normIF_str_opt_out _,
    normIF_arr_out _ _, normIF_arr_out _ _⟩

theorem normalizeItemEdu_out {a e : JVal}
    (h : normalizeItem educationItemSchema a = .ok e) : StableEduItem e := by
  obtain ⟨pairs, rfl, hf⟩ := normalizeItem_ok_inv h
  simp only [educationItemSchema] at hf
  rcases hf with _ | ⟨⟨w1, _, rfl⟩, hf⟩
  rcases hf with _ | ⟨⟨w2, _, rfl⟩, hf⟩
  rcases hf with _ | ⟨⟨w3, _, rfl⟩, hf⟩
  rcases hf with _ | ⟨⟨w4, _, rfl⟩, hf⟩
  rcases hf with _ | ⟨⟨w5, _, rfl⟩, hf⟩
  cases hf
  exact ⟨_, _, _, _, _, rfl, normIF_str_opt_out _, normIF_str_opt_out _,
    normIF_str_opt_out _, normIF_str_opt_out _, normIF_arr_out _ _⟩

theorem normalizeItemProj_out {a e : JVal}
    (h : normalizeItem projectsItemSchema a = .ok e) : StableProjItem e := by
  obtain ⟨pairs, rfl, hf⟩ := normalizeItem_ok_inv h
  simp only [projectsItemSchema] at hf
  rcases hf with _ | ⟨⟨w1, _, rfl⟩, hf⟩
  rcases hf with _ | ⟨⟨w2, _, rfl⟩, hf⟩
  rcases hf with _ | ⟨⟨w3, _, rfl⟩, hf⟩
  rcases hf with _ | ⟨⟨w4, _, rfl⟩, hf⟩
  cases hf
  exact ⟨_, _, _, _, rfl, normIF_str_req_out _, normIF_str_opt_out _,
    normIF_str_opt_out _, normIF_arr_out _ _⟩

theorem normalizeItemHon_out {a e : JVal}
    (h : normalizeItem honorsItemSchema a = .ok e) : StableHonItem e := by
  obtain ⟨pairs, rfl, hf⟩ := normalizeItem_ok_inv h
  simp only [honorsItemSchema] at hf
  rcases hf with _ | ⟨⟨w1, _, rfl⟩, hf⟩
  rcases hf with _ | ⟨⟨w2, _, rfl⟩, hf⟩
  rcases hf with _ | ⟨⟨w3, _, rfl⟩, hf⟩
  cases hf
  exact ⟨_, _, _, rfl, normIF_str_req_out _, normIF_str_opt_out _,
    normIF_arr_out _ _⟩

theorem normalizeItemExp_fixed {e : JVal} (h : StableExpItem e) :
    normalizeItem experienceItemSchema e = .ok e := by
  obtain ⟨t, ps, c, loc, per, resp, desc, rfl, h1, h2, h3, h4, h5, h6, h7⟩ := h
  cases resp with
  | jarr rl =>
    cases desc with
    | jarr dl =>
      simp only [normalizeItem, normItemField, experienceItemSchema, mapE_cons,
        mapE_nil, getField, lookupF]
      simp [normIF_str_opt_fixed h1, normIF_str_opt_fixed h2,
        normIF_str_opt_fixed h3, normIF_str_opt_fixed h4,
        normIF_str_opt_fixed h5, normIF_arr_fixed]
      rfl
    | _ => simp [isArrB] at h7
  | _ => simp [isArrB] at h6

theorem normalizeItemEdu_fixed {e : JVal} (h : StableEduItem e) :
    normalizeItem educationItemSchema e = .ok e := by
  obtain ⟨d, ins, loc, per, det, rfl, h1, h2, h3, h4, h5⟩ := h
  cases det with
  | jarr dl =>
    simp only [normalizeItem, normItemField, educationItemSchema, mapE_cons,
      mapE_nil, getField, lookupF]
    simp [normIF_str_opt_fixed h1, normIF_str_opt_fixed h2,
      normIF_str_opt_fixed h3, normIF_str_opt_fixed h4, normIF_arr_fixed]
    rfl
  | _ => simp [isArrB] at h5

theorem normalizeItemProj_fixed {e : JVal} (h : StableProjItem e) :
    normalizeItem projectsItemSchema e = .ok e := by
  obtain ⟨n, tf, lk, d, rfl, h1, h2, h3, h4⟩ := h
  cases d with
  | jarr dl =>
    simp only [normalizeItem, normItemField, projectsItemSchema, mapE_cons,
      mapE_nil, getField, lookupF]
    simp [normIF_str_req_fixed h1, normIF_str_opt_fixed h2,
      normIF_str_opt_fixed h3, normIF_arr_fixed]
    rfl
  | _ => simp [isArrB] at h4

theorem normalizeItemHon_fixed {e : JVal} (h : StableHonItem e) :
    normalizeItem honorsItemSchema e = .ok e := by
  obtain ⟨t, d, ds, rfl, h1, h2, h3⟩ := h
  cases ds with
  | jarr dl =>
    simp only [normalizeItem, normItemField, honorsItemSchema, mapE_cons,
      mapE_nil, getField, lookupF]
    simp [normIF_str_req_fixed h1, normIF_str_opt_fixed h2, normIF_arr_fixed]
    rfl
  | _ => simp [isArrB] at h3

theorem normTop_str_req_ok {w v : JVal}
    (h : normTop ⟨.tstr, true, none⟩ w = .ok v) :
    isUndefOrNull v = false ∧ (isUndefOrNull w = true → v = .jstr []) := by
  cases w with
  | undefV =>
    obtain rfl : JVal.jstr [] = v := Except.ok.inj h
    exact ⟨rfl, fun _ => rfl⟩
  | jnull =>
    obtain rfl : JVal.jstr [] = v := Except.ok.inj h
    exact ⟨rfl, fun _ => rfl⟩
  | jbool b =>
    obtain rfl : JVal.jbool b = v := Except.ok.inj h
    exact ⟨rfl, fun hw => nomatch hw⟩
  | jstr s =>
    obtain rfl : JVal.jstr s = v := Except.ok.inj h
    exact ⟨rfl, fun hw => nomatch hw⟩
  | jarr l =>
    obtain rfl : JVal.jarr l = v := Except.ok.inj h
    exact ⟨rfl, fun hw => nomatch hw⟩
  | jobj fs =>
    obtain rfl : JVal.jobj fs = v := Except.ok.inj h
    exact ⟨rfl, fun hw => nomatch hw⟩

theorem normTop_str_opt_ok {w v : JVal}
    (h : normTop ⟨.tstr, false, none⟩ w = .ok v) :
    isUndefB v = false := by
  cases w with
  | undefV => obtain rfl : JVal.jstr [] = v := Except.ok.inj h; rfl
  | jnull => obtain rfl : JVal.jnull = v := Except.ok.inj h; rfl
  | jbool b => obtain rfl : JVal.jbool b = v := Except.ok.inj h; rfl
  | jstr s => obtain rfl : JVal.jstr s = v := Except.ok.inj h; rfl
  | jarr l => obtain rfl : JVal.jarr l = v := Except.ok.inj h; rfl
  | jobj fs => obtain rfl : JVal.jobj fs = v := Except.ok.inj h; rfl

theorem normTop_arrSimple_ok {req : Bool} {w v : JVal}
    (h : normTop ⟨.tarr, req, none⟩ w = .ok v) :
    ∃ l, v = .jarr l ∧ (isUndefOrNull w = true → l = []) := by
  cases w with
  | jarr l =>
    obtain rfl : JVal.jarr l = v := by cases req <;> exact Except.ok.inj h
    exact ⟨l, rfl, fun hw => nomatch hw⟩
  | undefV =>
    obtain rfl : JVal.jarr [] = v := by cases req <;> exact Except.ok.inj h
    exact ⟨[], rfl, fun _ => rfl⟩
  | jnull =>
    obtain rfl : JVal.jarr [] = v := by cases req <;> exact Except.ok.inj h
    exact ⟨[], rfl, fun _ => rfl⟩
  | jbool b =>
    obtain rfl : JVal.jarr [] = v := by cases req <;> exact Except.ok.inj h
    exact ⟨[], rfl, fun hw => nomatch hw⟩
  | jstr s =>
    obtain rfl : JVal.jarr [] = v := by cases req <;> exact Except.ok.inj h
    exact ⟨[], rfl, fun hw => nomatch hw⟩
  | jobj fs =>
    obtain rfl : JVal.jarr [] = v := by cases req <;> exact Except.ok.inj h
    exact ⟨[], rfl, fun hw => nomatch hw⟩

theorem normTop_isch_ok {req : Bool} {isch : List (String × IRule)} {w v : JVal}
    (h : normTop ⟨.tarr, req, some isch⟩ w = .ok v) :
    ∃ items, v = .jarr items ∧
      (∀ e ∈ items, ∃ a, normalizeItem isch a = .ok e) ∧
      (isUndefOrNull w = true → items = []) := by
  cases w with
  | jarr l =>
    have h' : (mapE (normalizeItem isch) l >>= fun out => pure (.jarr out)) = .ok v := by
      cases req <;> exact h
    obtain ⟨out, hout, hp⟩ := bind_ok_inv h'
    simp only [pure, Except.pure, Except.ok.injEq] at hp
    subst hp
    exact ⟨out, rfl,
      fun e he => (mapE_ok_mem hout e he).imp (fun a ha => ha.2),
      fun hw => nomatch hw⟩
  | undefV =>
    obtain rfl : JVal.jarr [] = v := by cases req <;> exact Except.ok.inj h
    exact ⟨[], rfl, by simp, fun _ => rfl⟩
  | jnull =>
    obtain rfl : JVal.jarr [] = v := by cases req <;> exact Except.ok.inj h
    exact ⟨[], rfl, by simp, fun _ => rfl⟩
  | jbool b =>
    obtain rfl : JVal.jarr [] = v := by cases req <;> exact Except.ok.inj h
    exact ⟨[], rfl, by simp, fun _ => rfl⟩
  | jstr s =>
    obtain rfl : JVal.jarr [] = v := by cases req <;> exact Except.ok.inj h
    exact ⟨[], rfl, by simp, fun _ => rfl⟩
  | jobj fs =>
    obtain rfl : JVal.jarr [] = v := by cases req <;> exact Except.ok.inj h
    exact ⟨[], rfl, by simp, fun _ => rfl⟩

theorem normTop_str_req_fixed {v : JVal} (h : isUndefOrNull v = false) :
    normTop ⟨.tstr, true, none⟩ v = .ok v := by
  cases v <;> first | rfl | simp [isUndefOrNull] at h

theorem normTop_str_opt_fixed {v : JVal} (h : isUndefB v = false) :
    normTop ⟨.tstr, false, none⟩ v = .ok v := by
  cases v <;> first | rfl | simp [isUndefB] at h

theorem normTop_arrSimple_fixed (req : Bool) (l : List JVal) :
    normTop ⟨.tarr, req, none⟩ (.jarr l) = .ok (.jarr l) := by
  cases req <;> rfl

theorem normTop_isch_fixed {req : Bool} {isch : List (String × IRule)}
    {items : List JVal} (h : mapE (normalizeItem isch) items = .ok items) :
    normTop ⟨.tarr, req, some isch⟩ (.jarr items) = .ok (.jarr items) := by
  have h' : (mapE (normalizeItem isch) items >>= fun out => pure (.jarr out))
      = (.ok (.jarr items) : Except String JVal) := by
    rw [h]; rfl
  cases req <;> exact h'

/-- The invariant established on each experience entry by the synonym
pass: `position` is truthy, or it is `""` while `title` is falsy (so a
second pass rewrites it to the identical value). -/
def ExpPosInv (e : JVal) : Prop :=
  truthy (fieldOf e "position") = true ∨
    (fieldOf e "position" = .jstr [] ∧ truthy (fieldOf e "title") = false)

theorem synonymExp_red (t ps c loc per desc : JVal) (rl : List JVal) :
    synonymExp (.jobj [("title", t), ("position", ps), ("company", c),
      ("location", loc), ("period", per), ("responsibilities", .jarr rl),
      ("description", desc)]) =
    .ok (if !truthy ps && truthy t then
          .jobj [("title", t), ("position", t), ("company", c),
            ("location", loc), ("period", per),
            ("responsibilities", .jarr rl), ("description", desc)]
        else if !truthy ps then
          .jobj [("title", t), ("position", .jstr []), ("company", c),
            ("location", loc), ("period", per),
            ("responsibilities", .jarr rl), ("description", desc)]
        else
          .jobj [("title", t), ("position", ps), ("company", c),
            ("location", loc), ("period", per),
            ("responsibilities", .jarr rl), ("description", desc)]) := rfl

theorem synonymExp_out {e : JVal} (h : StableExpItem e) :
    ∃ e2, synonymExp e = .ok e2 ∧ StableExpItem e2 ∧ ExpPosInv e2 := by
  obtain ⟨t, ps, c, loc, per, resp, desc, rfl, h1, h2, h3, h4, h5, h6, h7⟩ := h
  cases resp with
  | jarr rl =>
    cases hps : truthy ps with
    | true =>
      refine ⟨.jobj [("title", t), ("position", ps), ("company", c),
          ("location", loc), ("period", per), ("responsibilities", .jarr rl),
          ("description", desc)], ?_,
        ⟨t, ps, c, loc, per, .jarr rl, desc, rfl, h1, h2, h3, h4, h5, h6, h7⟩,
        Or.inl hps⟩
      rw [synonymExp_red, hps]
      rfl
    | false =>
      cases ht : truthy t with
      | true =>
        refine ⟨.jobj [("title", t), ("position", t), ("company", c),
            ("location", loc), ("period", per), ("responsibilities", .jarr rl),
            ("description", desc)], ?_,
          ⟨t, t, c, loc, per, .jarr rl, desc, rfl, h1, h1, h3, h4, h5, h6, h7⟩,
          Or.inl ht⟩
        rw [synonymExp_red, hps, ht]
        rfl
      | false =>
        refine ⟨.jobj [("title", t), ("position", .jstr []), ("company", c),
            ("location", loc), ("period", per), ("responsibilities", .jarr rl),
            ("description", desc)], ?_,
          ⟨t, .jstr [], c, loc, per, .jarr rl, desc, rfl, h1, rfl, h3, h4, h5,
            h6, h7⟩,
          Or.inr ⟨rfl, ht⟩⟩
        rw [synonymExp_red, hps, ht]
        rfl
  | undefV => simp [isArrB] at h6
  | jnull => simp [isArrB] at h6
  | jbool b => simp [isArrB] at h6
  | jstr s => simp [isArrB] at h6
  | jobj fs => simp [isArrB] at h6

theorem synonymExp_fixed {e : JVal} (h : StableExpItem e) (hp : ExpPosInv e) :
    synonymExp e = .ok e := by
  obtain ⟨t, ps, c, loc, per, resp, desc, rfl, h1, h2, h3, h4, h5, h6, h7⟩ := h
  cases resp with
  | jarr rl =>
    rcases hp with hps | ⟨hps, ht⟩
    · have hps' : truthy ps = true := hps
      rw [synonymExp_red, hps']
      rfl
    · have hps' : ps = .jstr [] := hps
      have ht' : truthy t = false := ht
      subst hps'
      rw [synonymExp_red, ht']
      rfl
  | undefV => simp [isArrB] at h6
  | jnull => simp [isArrB] at h6
  | jbool b => simp [isArrB] at h6
  | jstr s => simp [isArrB] at h6
  | jobj fs => simp [isArrB] at h6

theorem mapE_ok_of_forall2 {f : α → Except String β} {l : List α} {ys : List β}
    (h : List.Forall₂ (fun a b => f a = .ok b) l ys) : mapE f l = .ok ys := by
  induction h with
  | nil => rfl
  | cons hab htl ih =>
    simp only [mapE_cons, hab, ih]
    rfl

theorem gtop_ok_inv {x : JVal} {f : String} {ru : Rule} {kv : String × JVal}
    (h : (getField x f >>= fun v => normTop ru v >>= fun nv => pure (f, nv))
      = .ok kv) :
    ∃ w nv, getField x f = .ok w ∧ normTop ru w = .ok nv ∧ kv = (f, nv) := by
  obtain ⟨w, hw, h2⟩ := bind_ok_inv h
  obtain ⟨nv, hnv, h3⟩ := bind_ok_inv h2
  simp only [pure, Except.pure, Except.ok.injEq] at h3
  exact ⟨w, nv, hw, hnv, h3.symm⟩

/-- Shape of every successful output of `validateAndNormalize`: exactly
the seventeen schema fields in declaration order, scalar fields never
`undefined` (required scalars also never `null`), array fields actual
arrays whose structured entries have their item-schema shapes, and
experience entries additionally satisfying the synonym-pass invariant. -/
def Stable (r : JVal) : Prop :=
  ∃ v1 v2 v3 v4 v5 v6 v7 v8 v9 exps edus sk la ce projs hons re,
    r = .jobj [("name", v1), ("title", v2), ("email", v3), ("phone", v4),
      ("linkedin", v5), ("github", v6), ("address", v7), ("location", v8),
      ("summary", v9), ("experience", .jarr exps), ("education", .jarr edus),
      ("skills", .jarr sk), ("languages", .jarr la),
      ("certifications", .jarr ce), ("projects", .jarr projs),
      ("honors", .jarr hons), ("references", .jarr re)] ∧
    isUndefOrNull v1 = false ∧ isUndefB v2 = false ∧
    isUndefOrNull v3 = false ∧ isUndefOrNull v4 = false ∧
    isUndefB v5 = false ∧ isUndefB v6 = false ∧ isUndefB v7 = false ∧
    isUndefB v8 = false ∧ isUndefB v9 = false ∧
    (∀ e ∈ exps, StableExpItem e ∧ ExpPosInv e) ∧
    (∀ e ∈ edus, StableEduItem e) ∧
    (∀ e ∈ projs, StableProjItem e) ∧
    (∀ e ∈ hons, StableHonItem e)

theorem synonymPass_red (v1 v2 v3 v4 v5 v6 v7 v8 v9 : JVal) (exps : List JVal)
    (v11 v12 v13 v14 v15 v16 v17 : JVal) :
    synonymPass (.jobj [("name", v1), ("title", v2), ("email", v3),
      ("phone", v4), ("linkedin", v5), ("github", v6), ("address", v7),
      ("location", v8), ("summary", v9), ("experience", .jarr exps),
      ("education", v11), ("skills", v12), ("languages", v13),
      ("certifications", v14), ("projects", v15), ("honors", v16),
      ("references", v17)]) =
    mapE synonymExp exps >>= fun l' =>
      pure (.jobj [("name", v1), ("title", v2), ("email", v3),
        ("phone", v4), ("linkedin", v5), ("github", v6), ("address", v7),
        ("location", v8), ("summary", v9), ("experience", .jarr l'),
        ("education", v11), ("skills", v12), ("languages", v13),
        ("certifications", v14), ("projects", v15), ("honors", v16),
        ("references", v17)]) := rfl

/-- Full description of a successful run of `validateAndNormalize`:
the output is `Stable`, and for every schema field the input value was
read and normalized by the field rule (experience additionally passing
through the synonym pass). -/
theorem vAN_ok_master {x r : JVal} (h : validateAndNormalize x = .ok r) :
    Stable r ∧
    ∀ fr ∈ resumeSchemaL, ∃ w nv, getField x fr.1 = .ok w ∧
      normTop fr.2 w = .ok nv ∧
      (fr.1 = "experience" → ∃ its its2, nv = .jarr its ∧
          mapE synonymExp its = .ok its2 ∧ fieldOf r fr.1 = .jarr its2) ∧
      (fr.1 ≠ "experience" → fieldOf r fr.1 = nv) := by
  unfold validateAndNormalize at h
  obtain ⟨pairs, hpairs, hsyn⟩ := bind_ok_inv h
  have hf := mapE_ok_forall2 hpairs
  simp only [resumeSchemaL] at hf
  rcases hf with _ | ⟨hk1, hf⟩
  rcases hf with _ | ⟨hk2, hf⟩
  rcases hf with _ | ⟨hk3, hf⟩
  rcases hf with _ | ⟨hk4, hf⟩
  rcases hf with _ | ⟨hk5, hf⟩
  rcases hf with _ | ⟨hk6, hf⟩
  rcases hf with _ | ⟨hk7, hf⟩
  rcases hf with _ | ⟨hk8, hf⟩
  rcases hf with _ | ⟨hk9, hf⟩
  rcases hf with _ | ⟨hk10, hf⟩
  rcases hf with _ | ⟨hk11, hf⟩
  rcases hf with _ | ⟨hk12, hf⟩
  rcases hf with _ | ⟨hk13, hf⟩
  rcases hf with _ | ⟨hk14, hf⟩
  rcases hf with _ | ⟨hk15, hf⟩
  rcases hf with _ | ⟨hk16, hf⟩
  rcases hf with _ | ⟨hk17, hf⟩
  cases hf
  obtain ⟨w1, v1, hw1, hv1, rfl⟩ := gtop_ok_inv hk1
  obtain ⟨w2, v2, hw2, hv2, rfl⟩ := gtop_ok_inv hk2
  obtain ⟨w3, v3, hw3, hv3, rfl⟩ := gtop_ok_inv hk3
  obtain ⟨w4, v4, hw4, hv4, rfl⟩ := gtop_ok_inv hk4
  obtain ⟨w5, v5, hw5, hv5, rfl⟩ := gtop_ok_inv hk5
  obtain ⟨w6, v6, hw6, hv6, rfl⟩ := gtop_ok_inv hk6
  obtain ⟨w7, v7, hw7, hv7, rfl⟩ := gtop_ok_inv hk7
  obtain ⟨w8, v8, hw8, hv8, rfl⟩ := gtop_ok_inv hk8
  obtain ⟨w9, v9, hw9, hv9, rfl⟩ := gtop_ok_inv hk9
  obtain ⟨w10, v10, hw10, hv10, rfl⟩ := gtop_ok_inv hk10
  obtain ⟨w11, v11, hw11, hv11, rfl⟩ := gtop_ok_inv hk11
  obtain ⟨w12, v12, hw12, hv12, rfl⟩ := gtop_ok_inv hk12
  obtain ⟨w13, v13, hw13, hv13, rfl⟩ := gtop_ok_inv hk13
  obtain ⟨w14, v14, hw14, hv14, rfl⟩ := gtop_ok_inv hk14
  obtain ⟨w15, v15, hw15, hv15, rfl⟩ := gtop_ok_inv hk15
  obtain ⟨w16, v16, hw16, hv16, rfl⟩ := gtop_ok_inv hk16
  obtain ⟨w17, v17, hw17, hv17, rfl⟩ := gtop_ok_inv hk17
  obtain ⟨items10, rfl, hitems10, hdef10⟩ := normTop_isch_ok hv10
  obtain ⟨items11, rfl, hitems11, hdef11⟩ := normTop_isch_ok hv11
  obtain ⟨l12, rfl, hdef12⟩ := normTop_arrSimple_ok hv12
  obtain ⟨l13, rfl, hdef13⟩ := normTop_arrSimple_ok hv13
  obtain ⟨l14, rfl, hdef14⟩ := normTop_arrSimple_ok hv14
  obtain ⟨items15, rfl, hitems15, hdef15⟩ := normTop_isch_ok hv15
  obtain ⟨items16, rfl, hitems16, hdef16⟩ := normTop_isch_ok hv16
  obtain ⟨l17, rfl, hdef17⟩ := normTop_arrSimple_ok hv17
  rw [synonymPass_red] at hsyn
  obtain ⟨items', hmap, hp⟩ := bind_ok_inv hsyn
  simp only [pure, Except.pure, Except.ok.injEq] at hp
  subst hp
  have hexp' : ∀ e' ∈ items', StableExpItem e' ∧ ExpPosInv e' := by
    intro e' he'
    obtain ⟨e, he, hse⟩ := mapE_ok_mem hmap e' he'
    obtain ⟨a, ha⟩ := hitems10 e he
    obtain ⟨e2, hs2, hst, hinv⟩ := synonymExp_out (normalizeItemExp_out ha)
    rw [hse] at hs2
    obtain rfl := Except.ok.inj hs2
    exact ⟨hst, hinv⟩
  have hedu' : ∀ e ∈ items11, StableEduItem e := fun e he =>
    (hitems11 e he).elim (fun a ha => normalizeItemEdu_out ha)
  have hproj' : ∀ e ∈ items15, StableProjItem e := fun e he =>
    (hitems15 e he).elim (fun a ha => normalizeItemProj_out ha)
  have hhon' : ∀ e ∈ items16, StableHonItem e := fun e he =>
    (hitems16 e he).elim (fun a ha => normalizeItemHon_out ha)
  constructor
  · exact ⟨v1, v2, v3, v4, v5, v6, v7, v8, v9, items', items11, l12, l13, l14,
      items15, items16, l17, rfl, (normTop_str_req_ok hv1).1,
      normTop_str_opt_ok hv2, (normTop_str_req_ok hv3).1,
      (normTop_str_req_ok hv4).1, normTop_str_opt_ok hv5,
      normTop_str_opt_ok hv6, normTop_str_opt_ok hv7,
      normTop_str_opt_ok hv8, normTop_str_opt_ok hv9,
      hexp', hedu', hproj', hhon'⟩
  · intro fr hfr
    simp only [resumeSchemaL, List.mem_cons, List.not_mem_nil, or_false] at hfr
    rcases hfr with rfl | rfl | rfl | rfl | rfl | rfl | rfl | rfl | rfl | rfl
      | rfl | rfl | rfl | rfl | rfl | rfl | rfl
    · exact ⟨w1, v1, hw1, hv1, fun hc => absurd hc (by decide),
        fun _ => rfl⟩
    · exact ⟨w2, v2, hw2, hv2, fun hc => absurd hc (by decide),
        fun _ => rfl⟩
    · exact ⟨w3, v3, hw3, hv3, fun hc => absurd hc (by decide),
        fun _ => rfl⟩
    · exact ⟨w4, v4, hw4, hv4, fun hc => absurd hc (by decide),
        fun _ => rfl⟩
    · exact ⟨w5, v5, hw5, hv5, fun hc => absurd hc (by decide),
        fun _ => rfl⟩
    · exact ⟨w6, v6, hw6, hv6, fun hc => absurd hc (by decide),
        fun _ => rfl⟩
    · exact ⟨w7, v7, hw7, hv7, fun hc => absurd hc (by decide),
        fun _ => rfl⟩
    · exact ⟨w8, v8, hw8, hv8, fun hc => absurd hc (by decide),
        fun _ => rfl⟩
    · exact ⟨w9, v9, hw9, hv9, fun hc => absurd hc (by decide),
        fun _ => rfl⟩
    · exact ⟨w10, .jarr items10, hw10, hv10,
        fun _ => ⟨items10, items', rfl, hmap, rfl⟩,
        fun hne => absurd rfl hne⟩
    · exact ⟨w11, .jarr items11, hw11, hv11,
        fun hc => absurd hc (by decide), fun _ => rfl⟩
    · exact ⟨w12, .jarr l12, hw12, hv12,
        fun hc => absurd hc (by decide), fun _ => rfl⟩
    · exact ⟨w13, .jarr l13, hw13, hv13,
        fun hc => absurd hc (by decide), fun _ => rfl⟩
    · exact ⟨w14, .jarr l14, hw14, hv14,
        fun hc => absurd hc (by decide), fun _ => rfl⟩
    · exact ⟨w15, .jarr items15, hw15, hv15,
        fun hc => absurd hc (by decide), fun _ => rfl⟩
    · exact ⟨w16, .jarr items16, hw16, hv16,
        fun hc => absurd hc (by decide), fun _ => rfl⟩
    · exact ⟨w17, .jarr l17, hw17, hv17,
        fun hc => absurd hc (by decide), fun _ => rfl⟩

theorem bind_ok_cong {x : Except String α} {a : α} (hx : x = .ok a)
    (f : α → Except String β) : (x >>= f) = f a := by
  rw [hx]; rfl

theorem vAN_fixed {r : JVal} (h : Stable r) : validateAndNormalize r = .ok r := by
  obtain ⟨v1, v2, v3, v4, v5, v6, v7, v8, v9, exps, edus, sk, la, ce, projs,
    hons, re, rfl, hh1, hh2, hh3, hh4, hh5, hh6, hh7, hh8, hh9, hexp, hedu,
    hproj, hhon⟩ := h
  have hmExp : mapE (normalizeItem experienceItemSchema) exps = .ok exps :=
    mapE_stable (fun e he => normalizeItemExp_fixed (hexp e he).1)
  have hmEdu : mapE (normalizeItem educationItemSchema) edus = .ok edus :=
    mapE_stable (fun e he => normalizeItemEdu_fixed (hedu e he))
  have hmProj : mapE (normalizeItem projectsItemSchema) projs = .ok projs :=
    mapE_stable (fun e he => normalizeItemProj_fixed (hproj e he))
  have hmHon : mapE (normalizeItem honorsItemSchema) hons = .ok hons :=
    mapE_stable (fun e he => normalizeItemHon_fixed (hhon e he))
  have hsynm : mapE synonymExp exps = .ok exps :=
    mapE_stable (fun e he => synonymExp_fixed (hexp e he).1 (hexp e he).2)
  have hm : mapE (normField (JVal.jobj [("name", v1), ("title", v2),
      ("email", v3), ("phone", v4), ("linkedin", v5), ("github", v6),
      ("address", v7), ("location", v8), ("summary", v9),
      ("experience", .jarr exps), ("education", .jarr edus),
      ("skills", .jarr sk), ("languages", .jarr la),
      ("certifications", .jarr ce), ("projects", .jarr projs),
      ("honors", .jarr hons), ("references", .jarr re)])) resumeSchemaL
      = .ok [("name", v1), ("title", v2), ("email", v3), ("phone", v4),
        ("linkedin", v5), ("github", v6), ("address", v7), ("location", v8),
        ("summary", v9), ("experience", .jarr exps), ("education", .jarr edus),
        ("skills", .jarr sk), ("languages", .jarr la),
        ("certifications", .jarr ce), ("projects", .jarr projs),
        ("honors", .jarr hons), ("references", .jarr re)] := by
    refine mapE_ok_of_forall2 (.cons ?_ (.cons ?_ (.cons ?_ (.cons ?_
      (.cons ?_ (.cons ?_ (.cons ?_ (.cons ?_ (.cons ?_ (.cons ?_ (.cons ?_
      (.cons ?_ (.cons ?_ (.cons ?_ (.cons ?_ (.cons ?_
      (.cons ?_ .nil)))))))))))))))))
    · show (normTop ⟨.tstr, true, none⟩ v1 >>= fun nv =>
          pure (("name" : String), nv)) = _
      rw [normTop_str_req_fixed hh1]; rfl
    · show (normTop ⟨.tstr, false, none⟩ v2 >>= fun nv =>
          pure (("title" : String), nv)) = _
      rw [normTop_str_opt_fixed hh2]; rfl
    · show (normTop ⟨.tstr, true, none⟩ v3 >>= fun nv =>
          pure (("email" : String), nv)) = _
      rw [normTop_str_req_fixed hh3]; rfl
    · show (normTop ⟨.tstr, true, none⟩ v4 >>= fun nv =>
          pure (("phone" : String), nv)) = _
      rw [normTop_str_req_fixed hh4]; rfl
    · show (normTop ⟨.tstr, false, none⟩ v5 >>= fun nv =>
          pure (("linkedin" : String), nv)) = _
      rw [normTop_str_opt_fixed hh5]; rfl
    · show (normTop ⟨.tstr, false, none⟩ v6 >>= fun nv =>
          pure (("github" : String), nv)) = _
      rw [normTop_str_opt_fixed hh6]; rfl
    · show (normTop ⟨.tstr, false, none⟩ v7 >>= fun nv =>
          pure (("address" : String), nv)) = _
      rw [normTop_str_opt_fixed hh7]; rfl
    · show (normTop ⟨.tstr, false, none⟩ v8 >>= fun nv =>
          pure (("location" : String), nv)) = _
      rw [normTop_str_opt_fixed hh8]; rfl
    · show (normTop ⟨.tstr, false, none⟩ v9 >>= fun nv =>
          pure (("summary" : String), nv)) = _
      rw [normTop_str_opt_fixed hh9]; rfl
    · show (normTop ⟨.tarr, true, some experienceItemSchema⟩ (.jarr exps)
          >>= fun nv => pure (("experience" : String), nv)) = _
      rw [normTop_isch_fixed hmExp]; rfl
    · show (normTop ⟨.tarr, true, some educationItemSchema⟩ (.jarr edus)
          >>= fun nv => pure (("education" : String), nv)) = _
      rw [normTop_isch_fixed hmEdu]; rfl
    · show (normTop ⟨.tarr, true, none⟩ (.jarr sk) >>= fun nv =>
          pure (("skills" : String), nv)) = _
      rw [normTop_arrSimple_fixed]; rfl
    · show (normTop ⟨.tarr, false, none⟩ (.jarr la) >>= fun nv =>
          pure (("languages" : String), nv)) = _
      rw [normTop_arrSimple_fixed]; rfl
    · show (normTop ⟨.tarr, false, none⟩ (.jarr ce) >>= fun nv =>
          pure (("certifications" : String), nv)) = _
      rw [normTop_arrSimple_fixed]; rfl
    · show (normTop ⟨.tarr, false, some projectsItemSchema⟩ (.jarr projs)
          >>= fun nv => pure (("projects" : String), nv)) = _
      rw [normTop_isch_fixed hmProj]; rfl
    · show (normTop ⟨.tarr, false, some honorsItemSchema⟩ (.jarr hons)
          >>= fun nv => pure (("honors" : String), nv)) = _
      rw [normTop_isch_fixed hmHon]; rfl
    · show (normTop ⟨.tarr, false, none⟩ (.jarr re) >>= fun nv =>
          pure (("references" : String), nv)) = _
      rw [normTop_arrSimple_fixed]; rfl
  unfold validateAndNormalize
  rw [bind_ok_cong hm]
  show synonymPass _ = _
  rw [synonymPass_red, bind_ok_cong hsynm]
  rfl

theorem mapE_ok_of_all {f : α → Except String β} {l : List α}
    (h : ∀ a ∈ l, ∃ b, f a = .ok b) : ∃ ys, mapE f l = .ok ys := by
  induction l with
  | nil => exact ⟨[], rfl⟩
  | cons a l ih =>
    obtain ⟨b, hb⟩ := h a (List.mem_cons_self a l)
    obtain ⟨ys, hys⟩ := ih (fun a' ha' => h a' (List.mem_cons_of_mem a ha'))
    exact ⟨b :: ys, by rw [mapE_cons, bind_ok_cong hb, bind_ok_cong hys]; rfl⟩

theorem normTop_str_total (req : Bool) (w : JVal) :
    ∃ nv, normTop ⟨.tstr, req, none⟩ w = .ok nv := by
  cases req <;> cases w <;> exact ⟨_, rfl⟩

theorem normTop_arrSimple_total (req : Bool) (w : JVal) :
    ∃ nv, normTop ⟨.tarr, req, none⟩ w = .ok nv := by
  cases req <;> cases w <;> exact ⟨_, rfl⟩

theorem getField_ok_of {x : JVal} (h : isUndefOrNull x = false) (f : String) :
    ∃ v, getField x f = .ok v := by
  cases x with
  | undefV => exact nomatch h
  | jnull => exact nomatch h
  | jbool b => exact ⟨_, rfl⟩
  | jstr s => exact ⟨_, rfl⟩
  | jarr l => exact ⟨_, rfl⟩
  | jobj fs => exact ⟨_, rfl⟩

theorem normalizeItem_ok_of {isch : List (String × IRule)} {item : JVal}
    (h : isUndefOrNull item = false) :
    ∃ o, normalizeItem isch item = .ok o := by
  suffices hs : ∃ ps, mapE (normItemField item) isch = .ok ps by
    obtain ⟨ps, hps⟩ := hs
    exact ⟨.jobj ps, by unfold normalizeItem; rw [bind_ok_cong hps]; rfl⟩
  refine mapE_ok_of_all (fun fr _ => ?_)
  obtain ⟨v, hv⟩ := getField_ok_of h fr.1
  exact ⟨(fr.1, normIF fr.2 v), by unfold normItemField; rw [bind_ok_cong hv]; rfl⟩

theorem normTop_isch_total {req : Bool} {isch : List (String × IRule)}
    {w : JVal} (h : ∀ l, w = .jarr l → ∀ e ∈ l, isUndefOrNull e = false) :
    ∃ nv, normTop ⟨.tarr, req, some isch⟩ w = .ok nv := by
  cases w with
  | jarr l =>
    obtain ⟨ys, hys⟩ := mapE_ok_of_all
      (fun e he => normalizeItem_ok_of (h l rfl e he))
    refine ⟨.jarr ys, ?_⟩
    have h' : (mapE (normalizeItem isch) l >>= fun out => pure (.jarr out))
        = (.ok (.jarr ys) : Except String JVal) := by
      rw [bind_ok_cong hys]; rfl
    cases req <;> exact h'
  | undefV => cases req <;> exact ⟨_, rfl⟩
  | jnull => cases req <;> exact ⟨_, rfl⟩
  | jbool b => cases req <;> exact ⟨_, rfl⟩
  | jstr s => cases req <;> exact ⟨_, rfl⟩
  | jobj fs => cases req <;> exact ⟨_, rfl⟩

/-- The four schema fields whose arrays are normalized entry-wise. -/
def structuredArrayFields : List String :=
  ["experience", "education", "projects", "honors"]

/-- The condition under which `validateAndNormalize` cannot raise: no
structured-array field of the input holds an array containing `null` or
`undefined` entries (only a property read on `null`/`undefined` throws). -/
def structuredOK (fs : List (String × JVal)) : Bool :=
  structuredArrayFields.all (fun f =>
    match lookupF fs f with
    | .jarr l => l.all (fun e => !(isUndefOrNull e))
    | _ => true)

theorem structuredOK_spec {fs : List (String × JVal)}
    (h : structuredOK fs = true) (f : String)
    (hf : f ∈ structuredArrayFields) :
    ∀ l, lookupF fs f = .jarr l → ∀ e ∈ l, isUndefOrNull e = false := by
  intro l hl e he
  have := (List.all_eq_true.mp h) f hf
  rw [hl] at this
  have := (List.all_eq_true.mp this) e he
  simpa using this

theorem normTop_isch_len {req : Bool} {isch : List (String × IRule)}
    {l its : List JVal}
    (h : normTop ⟨.tarr, req, some isch⟩ (.jarr l) = .ok (.jarr its)) :
    its.length = l.length := by
  have h' : (mapE (normalizeItem isch) l >>= fun out => pure (.jarr out))
      = (.ok (.jarr its) : Except String JVal) := by cases req <;> exact h
  obtain ⟨out, hout, hp⟩ := bind_ok_inv h'
  simp only [pure, Except.pure, Except.ok.injEq, JVal.jarr.injEq] at hp
  subst hp
  exact mapE_ok_length hout

/-- `validateAndNormalize` succeeds on every object input whose
structured-array entries are not `null`/`undefined`. -/
theorem vAN_ok_of_good {fs : List (String × JVal)}
    (hgood : structuredOK fs = true) :
    ∃ r, validateAndNormalize (.jobj fs) = .ok r := by
  have hpairs : ∃ pairs,
      mapE (normField (.jobj fs)) resumeSchemaL = .ok pairs := by
    refine mapE_ok_of_all (fun fr hfr => ?_)
    simp only [resumeSchemaL, List.mem_cons, List.not_mem_nil, or_false] at hfr
    have hstep : ∀ (f : String) (ru : Rule),
        (∃ nv, normTop ru (lookupF fs f) = .ok nv) →
        ∃ kv, normField (.jobj fs) (f, ru) = .ok kv := by
      intro f ru ⟨nv, hnv⟩
      refine ⟨(f, nv), ?_⟩
      show (normTop ru (lookupF fs f) >>= fun nv => pure (f, nv)) = _
      rw [bind_ok_cong hnv]
      rfl
    rcases hfr with rfl | rfl | rfl | rfl | rfl | rfl | rfl | rfl | rfl | rfl
      | rfl | rfl | rfl | rfl | rfl | rfl | rfl
    · exact hstep _ _ (normTop_str_total _ _)
    · exact hstep _ _ (normTop_str_total _ _)
    · exact hstep _ _ (normTop_str_total _ _)
    · exact hstep _ _ (normTop_str_total _ _)
    · exact hstep _ _ (normTop_str_total _ _)
    · exact hstep _ _ (normTop_str_total _ _)
    · exact hstep _ _ (normTop_str_total _ _)
    · exact hstep _ _ (normTop_str_total _ _)
    · exact hstep _ _ (normTop_str_total _ _)
    · exact hstep _ _ (normTop_isch_total
        (structuredOK_spec hgood "experience" (by simp [structuredArrayFields])))
    · exact hstep _ _ (normTop_isch_total
        (structuredOK_spec hgood "education" (by simp [structuredArrayFields])))
    · exact hstep _ _ (normTop_arrSimple_total _ _)
    · exact hstep _ _ (normTop_arrSimple_total _ _)
    · exact hstep _ _ (normTop_arrSimple_total _ _)
    · exact hstep _ _ (normTop_isch_total
        (structuredOK_spec hgood "projects" (by simp [structuredArrayFields])))
    · exact hstep _ _ (normTop_isch_total
        (structuredOK_spec hgood "honors" (by simp [structuredArrayFields])))
    · exact hstep _ _ (normTop_arrSimple_total _ _)
  obtain ⟨pairs, hpairs⟩ := hpairs
  have hf := mapE_ok_forall2 hpairs
  simp only [resumeSchemaL] at hf
  rcases hf with _ | ⟨hk1, hf⟩
  rcases hf with _ | ⟨hk2, hf⟩
  rcases hf with _ | ⟨hk3, hf⟩
  rcases hf with _ | ⟨hk4, hf⟩
  rcases hf with _ | ⟨hk5, hf⟩
  rcases hf with _ | ⟨hk6, hf⟩
  rcases hf with _ | ⟨hk7, hf⟩
  rcases hf with _ | ⟨hk8, hf⟩
  rcases hf with _ | ⟨hk9, hf⟩
  rcases hf with _ | ⟨hk10, hf⟩
  rcases hf with _ | ⟨hk11, hf⟩
  rcases hf with _ | ⟨hk12, hf⟩
  rcases hf with _ | ⟨hk13, hf⟩
  rcases hf with _ | ⟨hk14, hf⟩
  rcases hf with _ | ⟨hk15, hf⟩
  rcases hf with _ | ⟨hk16, hf⟩
  rcases hf with _ | ⟨hk17, hf⟩
  cases hf
  obtain ⟨w1, v1, hw1, hv1, rfl⟩ := gtop_ok_inv hk1
  obtain ⟨w2, v2, hw2, hv2, rfl⟩ := gtop_ok_inv hk2
  obtain ⟨w3, v3, hw3, hv3, rfl⟩ := gtop_ok_inv hk3
  obtain ⟨w4, v4, hw4, hv4, rfl⟩ := gtop_ok_inv hk4
  obtain ⟨w5, v5, hw5, hv5, rfl⟩ := gtop_ok_inv hk5
  obtain ⟨w6, v6, hw6, hv6, rfl⟩ := gtop_ok_inv hk6
  obtain ⟨w7, v7, hw7, hv7, rfl⟩ := gtop_ok_inv hk7
  obtain ⟨w8, v8, hw8, hv8, rfl⟩ := gtop_ok_inv hk8
  obtain ⟨w9, v9, hw9, hv9, rfl⟩ := gtop_ok_inv hk9
  obtain ⟨w10, v10, hw10, hv10, rfl⟩ := gtop_ok_inv hk10
  obtain ⟨w11, v11, hw11, hv11, rfl⟩ := gtop_ok_inv hk11
  obtain ⟨w12, v12, hw12, hv12, rfl⟩ := gtop_ok_inv hk12
  obtain ⟨w13, v13, hw13, hv13, rfl⟩ := gtop_ok_inv hk13
  obtain ⟨w14, v14, hw14, hv14, rfl⟩ := gtop_ok_inv hk14
  obtain ⟨w15, v15, hw15, hv15, rfl⟩ := gtop_ok_inv hk15
  obtain ⟨w16, v16, hw16, hv16, rfl⟩ := gtop_ok_inv hk16
  obtain ⟨w17, v17, hw17, hv17, rfl⟩ := gtop_ok_inv hk17
  obtain ⟨items10, rfl, hitems10, -⟩ := normTop_isch_ok hv10
  obtain ⟨items', hmap⟩ := @mapE_ok_of_all _ _ synonymExp items10
    (fun e he => by
      obtain ⟨a, ha⟩ := hitems10 e he
      obtain ⟨e2, hs2, -, -⟩ := synonymExp_out (normalizeItemExp_out ha)
      exact ⟨e2, hs2⟩)
  have hfinal : validateAndNormalize (.jobj fs)
      = .ok (.jobj [("name", v1), ("title", v2), ("email", v3),
        ("phone", v4), ("linkedin", v5), ("github", v6), ("address", v7),
        ("location", v8), ("summary", v9), ("experience", .jarr items'),
        ("education", v11), ("skills", v12), ("languages", v13),
        ("certifications", v14), ("projects", v15), ("honors", v16),
        ("references", v17)]) := by
    unfold validateAndNormalize
    rw [bind_ok_cong hpairs]
    show synonymPass (JVal.jobj [("name", v1), ("title", v2), ("email", v3),
      ("phone", v4), ("linkedin", v5), ("github", v6), ("address", v7),
      ("location", v8), ("summary", v9), ("experience", .jarr items10),
      ("education", v11), ("skills", v12), ("languages", v13),
      ("certifications", v14), ("projects", v15), ("honors", v16),
      ("references", v17)]) = _
    rw [synonymPass_red, bind_ok_cong hmap]
    rfl
  exact ⟨_, hfinal⟩

/-! ## Claims about the schema normalizer -/

/-- The first entry of a record's `experience` array. -/
def firstExperience (r : JVal) : JVal :=
  match fieldOf r "experience" with
  | .jarr (e :: _) => e
  | _ => .undefV

/-- The failing input for claim C1: an experience entry with
`title="T"`, `description=["d"]`, and no `position`/`responsibilities`. -/
def C1input : JVal :=
  .jobj [("experience", .jarr
    [.jobj [("title", .jstr ['T']), ("description", .jarr [.jstr ['d']])]])]

/-- C1: the claim says `normalize` yields `position == "T"` and
`responsibilities == ["d"]` for an experience entry with `title="T"`,
`description=["d"]` and no `position`/`responsibilities`.  Evaluating
the code at that input shows `position == "T"` but
`responsibilities == []`: the schema pass has already defaulted the
required `responsibilities` field to `[]`, which is truthy in JS, so
the `description`-to-`responsibilities` copy in the synonym pass can
never fire.  The code contradicts its own comment ("Handle different
naming conventions between parsers") and the spec's intent. -/
theorem C1_synonym_copy_eval :
    (validateAndNormalize C1input).map (fun r =>
      (fieldOf (firstExperience r) "position",
       fieldOf (firstExperience r) "responsibilities"))
    = .ok (JVal.jstr ['T'], JVal.jarr []) := rfl

/-- C3: the normalizer is idempotent — running `validateAndNormalize`
on its own (successful or failed) output changes nothing:
`normalize(normalize(x)) = normalize(x)` for every input value `x`. -/
theorem C3_normalize_idempotent (x : JVal) :
    (validateAndNormalize x >>= validateAndNormalize)
      = validateAndNormalize x := by
  cases h : validateAndNormalize x with
  | error e => rfl
  | ok r =>
    show validateAndNormalize r = Except.ok r
    exact vAN_fixed (vAN_ok_master h).1

/-- C4 counterexample: normalization drops data.  The input has the
field `hobbies` with value `"chess"`, but the output of
`validateAndNormalize` has no `hobbies` field at all — the normalizer
only copies fields declared in the schema. -/
theorem C4_counterexample_drops_field :
    (validateAndNormalize (.jobj [("hobbies",
      .jstr ['c', 'h', 'e', 's', 's'])])).map
      (fun r => hasField r "hobbies") = .ok false := rfl

/-- C4 (amended): normalization never fails on object inputs whose
structured-array fields (`experience`, `education`, `projects`,
`honors`) contain no `null`/`undefined` entries; every successful
output is an object holding exactly the seventeen schema-declared
field names; a declared scalar field present with a string value keeps
that value, a declared simple array field present with an array value
keeps that value, and a declared structured array field present with
an array value keeps its number of entries (each entry being
normalized); but fields not declared in the schema are dropped. -/
theorem C4_normalize_fills_gaps :
    (∀ fs, structuredOK fs = true →
      ∃ r, validateAndNormalize (.jobj fs) = .ok r) ∧
    (∀ x r, validateAndNormalize x = .ok r →
      ∃ prs, r = .jobj prs ∧
        prs.map Prod.fst = resumeSchemaL.map Prod.fst) ∧
    (∀ fs r, validateAndNormalize (.jobj fs) = .ok r →
      (∀ f, f ∈ ["name", "title", "email", "phone", "linkedin", "github",
          "address", "location", "summary"] →
        ∀ s, lookupF fs f = .jstr s → fieldOf r f = .jstr s) ∧
      (∀ f, f ∈ ["skills", "languages", "certifications", "references"] →
        ∀ l, lookupF fs f = .jarr l → fieldOf r f = .jarr l) ∧
      (∀ f, f ∈ structuredArrayFields →
        ∀ l, lookupF fs f = .jarr l →
          ∃ l2, fieldOf r f = .jarr l2 ∧ l2.length = l.length)) := by
  refine ⟨fun fs h => vAN_ok_of_good h, fun x r h => ?_, fun fs r h => ?_⟩
  · obtain ⟨v1, v2, v3, v4, v5, v6, v7, v8, v9, exps, edus, sk, la, ce,
      projs, hons, re, rfl, -⟩ := (vAN_ok_master h).1
    exact ⟨_, rfl, rfl⟩
  · have hmaster := (vAN_ok_master h).2
    refine ⟨?_, ?_, ?_⟩
    · intro f hf s hs
      have hstr : ∀ (ru : Rule), ru.rtype = .tstr → ru.itemSchema = none →
          (f, ru) ∈ resumeSchemaL → f ≠ "experience" →
          fieldOf r f = .jstr s := by
        intro ru hrt hrn hmem hne
        obtain ⟨w, nv, hw, hnv, -, hnexp⟩ := hmaster (f, ru) hmem
        obtain rfl : lookupF fs f = w := Except.ok.inj hw
        rw [hs] at hnv
        obtain ⟨rt, req, isch⟩ := ru
        cases hrt; cases hrn
        have : normTop ⟨.tstr, req, none⟩ (.jstr s) = .ok (.jstr s) := by
          cases req <;> rfl
        rw [this] at hnv
        obtain rfl := Except.ok.inj hnv
        exact hnexp hne
      fin_cases hf
      · exact hstr ⟨.tstr, true, none⟩ rfl rfl
          (by simp [resumeSchemaL]) (by decide)
      · exact hstr ⟨.tstr, false, none⟩ rfl rfl
          (by simp [resumeSchemaL]) (by decide)
      · exact hstr ⟨.tstr, true, none⟩ rfl rfl
          (by simp [resumeSchemaL]) (by decide)
      · exact hstr ⟨.tstr, true, none⟩ rfl rfl
          (by simp [resumeSchemaL]) (by decide)
      · exact hstr ⟨.tstr, false, none⟩ rfl rfl
          (by simp [resumeSchemaL]) (by decide)
      · exact hstr ⟨.tstr, false, none⟩ rfl rfl
          (by simp [resumeSchemaL]) (by decide)
      · exact hstr ⟨.tstr, false, none⟩ rfl rfl
          (by simp [resumeSchemaL]) (by decide)
      · exact hstr ⟨.tstr, false, none⟩ rfl rfl
          (by simp [resumeSchemaL]) (by decide)
      · exact hstr ⟨.tstr, false, none⟩ rfl rfl
          (by simp [resumeSchemaL]) (by decide)
    · intro f hf l hl
      have harr : ∀ (ru : Rule), ru.rtype = .tarr → ru.itemSchema = none →
          (f, ru) ∈ resumeSchemaL → f ≠ "experience" →
          fieldOf r f = .jarr l := by
        intro ru hrt hrn hmem hne
        obtain ⟨w, nv, hw, hnv, -, hnexp⟩ := hmaster (f, ru) hmem
        obtain rfl : lookupF fs f = w := Except.ok.inj hw
        rw [hl] at hnv
        obtain ⟨rt, req, isch⟩ := ru
        cases hrt; cases hrn
        rw [normTop_arrSimple_fixed] at hnv
        obtain rfl := Except.ok.inj hnv
        exact hnexp hne
      fin_cases hf
      · exact harr ⟨.tarr, true, none⟩ rfl rfl
          (by simp [resumeSchemaL]) (by decide)
      · exact harr ⟨.tarr, false, none⟩ rfl rfl
          (by simp [resumeSchemaL]) (by decide)
      · exact harr ⟨.tarr, false, none⟩ rfl rfl
          (by simp [resumeSchemaL]) (by decide)
      · exact harr ⟨.tarr, false, none⟩ rfl rfl
          (by simp [resumeSchemaL]) (by decide)
    · intro f hf l hl
      have hisch : ∀ (ru : Rule) (isch : List (String × IRule)),
          ru.rtype = .tarr → ru.itemSchema = some isch →
          (f, ru) ∈ resumeSchemaL →
          ∃ l2, fieldOf r f = .jarr l2 ∧ l2.length = l.length := by
        intro ru isch hrt hri hmem
        obtain ⟨w, nv, hw, hnv, hexpc, hnexp⟩ := hmaster (f, ru) hmem
        obtain rfl : lookupF fs f = w := Except.ok.inj hw
        rw [hl] at hnv
        obtain ⟨rt, req, ischv⟩ := ru
        cases hrt; cases hri
        obtain ⟨its, rfl, -, -⟩ := normTop_isch_ok hnv
        have hlen := normTop_isch_len hnv
        by_cases hfe : f = "experience"
        · obtain ⟨its0, its2, heq, hmap, hfield⟩ := hexpc hfe
          obtain rfl : its = its0 := by
            injection heq
          exact ⟨its2, hfield, by rw [mapE_ok_length hmap, hlen]⟩
        · exact ⟨its, hnexp hfe, hlen⟩
      fin_cases hf
      · exact hisch ⟨.tarr, true, some experienceItemSchema⟩
          experienceItemSchema rfl rfl (by simp [resumeSchemaL])
      · exact hisch ⟨.tarr, true, some educationItemSchema⟩
          educationItemSchema rfl rfl (by simp [resumeSchemaL])
      · exact hisch ⟨.tarr, false, some projectsItemSchema⟩
          projectsItemSchema rfl rfl (by simp [resumeSchemaL])
      · exact hisch ⟨.tarr, false, some honorsItemSchema⟩
          honorsItemSchema rfl rfl (by simp [resumeSchemaL])

/-- C5: for every input on which `validateAndNormalize` returns a
record, every schema field declared `required` is present in the
output and is neither `undefined` nor `null`; if the field was missing
from the input (`undefined` or `null`), the output holds the
type-appropriate default — the empty string for scalars, the empty
array for array fields. -/
theorem C5_normalize_completeness {x r : JVal}
    (h : validateAndNormalize x = .ok r) :
    ∀ fr ∈ resumeSchemaL, fr.2.required = true →
      isUndefOrNull (fieldOf r fr.1) = false ∧
      ((getField x fr.1 = .ok .undefV ∨ getField x fr.1 = .ok .jnull) →
        fieldOf r fr.1 = defaultFor fr.2.rtype) := by
  intro fr hfr hreq
  obtain ⟨w, nv, hw, hnv, hexpc, hnexp⟩ := (vAN_ok_master h).2 fr hfr
  have hwmiss : (getField x fr.1 = .ok .undefV ∨ getField x fr.1 = .ok .jnull)
      → isUndefOrNull w = true := by
    rintro (hcase | hcase) <;>
      (rw [hw] at hcase; obtain rfl := Except.ok.inj hcase; rfl)
  simp only [resumeSchemaL, List.mem_cons, List.not_mem_nil, or_false] at hfr
  rcases hfr with rfl | rfl | rfl | rfl | rfl | rfl | rfl | rfl | rfl | rfl
    | rfl | rfl | rfl | rfl | rfl | rfl | rfl
  · rw [hnexp (by decide)]
    obtain ⟨h1, h2⟩ := normTop_str_req_ok hnv
    exact ⟨h1, fun hm => h2 (hwmiss hm)⟩
  · exact nomatch hreq
  · rw [hnexp (by decide)]
    obtain ⟨h1, h2⟩ := normTop_str_req_ok hnv
    exact ⟨h1, fun hm => h2 (hwmiss hm)⟩
  · rw [hnexp (by decide)]
    obtain ⟨h1, h2⟩ := normTop_str_req_ok hnv
    exact ⟨h1, fun hm => h2 (hwmiss hm)⟩
  · exact nomatch hreq
  · exact nomatch hreq
  · exact nomatch hreq
  · exact nomatch hreq
  · exact nomatch hreq
  · obtain ⟨its0, its2, heq, hmap, hfield⟩ := hexpc rfl
    obtain ⟨its, heq2, -, hdef⟩ := normTop_isch_ok hnv
    rw [heq] at heq2
    obtain rfl : its0 = its := by injection heq2
    rw [hfield]
    refine ⟨rfl, fun hm => ?_⟩
    obtain rfl : its0 = [] := hdef (hwmiss hm)
    obtain rfl : its2 = [] := by
      have := mapE_ok_length hmap
      cases its2 with
      | nil => rfl
      | cons a l => simp at this
    rfl
  · obtain ⟨its, rfl, -, hdef⟩ := normTop_isch_ok hnv
    rw [hnexp (by decide)]
    exact ⟨rfl, fun hm => by rw [hdef (hwmiss hm)]; rfl⟩
  · obtain ⟨l, rfl, hdef⟩ := normTop_arrSimple_ok hnv
    rw [hnexp (by decide)]
    exact ⟨rfl, fun hm => by rw [hdef (hwmiss hm)]; rfl⟩
  · exact nomatch hreq
  · exact nomatch hreq
  · exact nomatch hreq
  · exact nomatch hreq
  · exact nomatch hreq

/-- A concrete well-formed partial record used to witness C4. -/
def C4goodIn : List (String × JVal) :=
  [("name", .jstr ['J', 'o']), ("skills", .jarr [.jstr ['G', 'o']]),
   ("experience", .jarr [.jobj []]), ("hobbies", .jstr ['x'])]

/-- The record `validateAndNormalize` produces from `C4goodIn`. -/
def C4out : JVal :=
  .jobj [("name", .jstr ['J', 'o']), ("title", .jstr []),
    ("email", .jstr []), ("phone", .jstr []), ("linkedin", .jstr []),
    ("github", .jstr []), ("address", .jstr []), ("location", .jstr []),
    ("summary", .jstr []),
    ("experience", .jarr [.jobj [("title", .jstr []), ("position", .jstr []),
      ("company", .jstr []), ("location", .jstr []), ("period", .jstr []),
      ("responsibilities", .jarr []), ("description", .jarr [])]]),
    ("education", .jarr []), ("skills", .jarr [.jstr ['G', 'o']]),
    ("languages", .jarr []), ("certifications", .jarr []),
    ("projects", .jarr []), ("honors", .jarr []), ("references", .jarr [])]

/-- Witness for C4 at the concrete input `C4goodIn`: normalization
succeeds, and the present string field `name` and array field `skills`
keep their values. -/
theorem C4_fills_gaps_witness :
    (∃ r, validateAndNormalize (.jobj C4goodIn) = .ok r) ∧
    fieldOf C4out "name" = .jstr ['J', 'o'] ∧
    fieldOf C4out "skills" = .jarr [.jstr ['G', 'o']] :=
  ⟨C4_normalize_fills_gaps.1 C4goodIn rfl,
   (C4_normalize_fills_gaps.2.2 C4goodIn C4out rfl).1 "name"
     (by simp) ['J', 'o'] rfl,
   (C4_normalize_fills_gaps.2.2 C4goodIn C4out rfl).2.1 "skills"
     (by simp) [.jstr ['G', 'o']] rfl⟩

/-- The record `validateAndNormalize` produces from the empty object. -/
def C5emptyOut : JVal :=
  .jobj [("name", .jstr []), ("title", .jstr []), ("email", .jstr []),
    ("phone", .jstr []), ("linkedin", .jstr []), ("github", .jstr []),
    ("address", .jstr []), ("location", .jstr []), ("summary", .jstr []),
    ("experience", .jarr []), ("education", .jarr []), ("skills", .jarr []),
    ("languages", .jarr []), ("certifications", .jarr []),
    ("projects", .jarr []), ("honors", .jarr []), ("references", .jarr [])]

/-- Witness for C5 at the concrete input `{}`: the required field
`name` is present, non-null, and holds the empty-string default. -/
theorem C5_completeness_witness :
    isUndefOrNull (fieldOf C5emptyOut "name") = false ∧
    fieldOf C5emptyOut "name" = defaultFor TType.tstr := by
  have h := C5_normalize_completeness
    (show validateAndNormalize (.jobj []) = .ok C5emptyOut from rfl)
    ("name", ⟨.tstr, true, none⟩) (by simp [resumeSchemaL]) rfl
  exact ⟨h.1, h.2 (Or.inl rfl)⟩

/-! ## Text utilities for the coverage verifier (src/verificationUtils.js)

Text is modelled as `List Char`.  `toLowerCase` is modelled with
`Char.toLower` (ASCII case mapping, which agrees with JS on the inputs
involved here). -/

/-- The character class of the JS regex `\s`. -/
def jsWhitespace (c : Char) : Bool :=
  c = ' ' || (9 ≤ c.toNat && c.toNat ≤ 13) || c = ' ' || c = ' ' ||
  (0x2000 ≤ c.toNat && c.toNat ≤ 0x200a) || c = ' ' || c = ' ' ||
  c = ' ' || c = ' ' || c = '　' || c = '﻿'

/-- `text.replace(/\s+/g, " ")`: collapse every maximal whitespace run
to a single space.  The boolean tracks whether the previous character
was part of a run already replaced. -/
def collapseWS : List Char → Bool → List Char
  | [], _ => []
  | c :: cs, inWs =>
    if jsWhitespace c then
      (if inWs then [] else [' ']) ++ collapseWS cs true
    else c :: collapseWS cs false

/-- `text.trim()`. -/
def trimL (l : List Char) : List Char :=
  ((l.dropWhile jsWhitespace).reverse.dropWhile jsWhitespace).reverse

/-- The verifier's `normalizeText`: lower-case, collapse whitespace
runs to single spaces, trim. -/
def normalizeText (t : List Char) : List Char :=
  trimL (collapseWS (t.map Char.toLower) false)

/-- Worker for `originalText.split(/\n{2,}/)`: `acc` is the reversed
current chunk, `n` the number of pending consecutive newlines. -/
def splitBlankGo : List Char → List Char → Nat → List (List Char)
  | [], acc, n =>
    if n ≥ 2 then [acc.reverse, []] else [acc.reverse ++ List.replicate n '\n']
  | c :: cs, acc, n =>
    if c = '\n' then splitBlankGo cs acc (n + 1)
    else if n ≥ 2 then acc.reverse :: splitBlankGo cs [c] 0
    else splitBlankGo cs (c :: (List.replicate n '\n' ++ acc)) 0

/-- `originalText.split(/\n{2,}/)`: split on maximal runs of two or
more newlines. -/
def splitBlank (t : List Char) : List (List Char) :=
  splitBlankGo t [] 0

/-- `chunk.split(" ")`. -/
def splitOnSpaceGo : List Char → List Char → List (List Char)
  | [], acc => [acc.reverse]
  | c :: cs, acc =>
    if c = ' ' then acc.reverse :: splitOnSpaceGo cs []
    else splitOnSpaceGo cs (c :: acc)

/-- `chunk.split(" ")` on a whole string. -/
def splitOnSpace (t : List Char) : List (List Char) :=
  splitOnSpaceGo t []

/-- Whether `hay` starts with `needle`. -/
def startsWithL : List Char → List Char → Bool
  | [], _ => true
  | _ :: _, [] => false
  | a :: as, b :: bs => a = b && startsWithL as bs

/-- `hay.includes(needle)`: substring test. -/
def containsSub (hay needle : List Char) : Bool :=
  if startsWithL needle hay then true
  else
    match hay with
    | [] => false
    | _ :: t => containsSub t needle

theorem startsWithL_iff {needle hay : List Char} :
    startsWithL needle hay = true ↔ ∃ t, needle ++ t = hay := by
  induction needle generalizing hay with
  | nil => simp [startsWithL]
  | cons a as ih =>
    cases hay with
    | nil => simp [startsWithL]
    | cons b bs =>
      simp only [startsWithL, Bool.and_eq_true, decide_eq_true_eq, ih,
        List.cons_append, List.cons.injEq]
      constructor
      · rintro ⟨rfl, t, rfl⟩; exact ⟨t, rfl, rfl⟩
      · rintro ⟨t, rfl, rfl⟩; exact ⟨rfl, t, rfl⟩

theorem containsSub_iff {hay needle : List Char} :
    containsSub hay needle = true ↔ ∃ pre post, hay = pre ++ needle ++ post := by
  induction hay with
  | nil =>
    constructor
    · intro h
      rw [containsSub] at h
      split at h
      · rename_i hsw
        obtain ⟨t, ht⟩ := startsWithL_iff.mp hsw
        obtain ⟨rfl, rfl⟩ := List.append_eq_nil.mp ht
        exact ⟨[], [], rfl⟩
      · simp at h
    · rintro ⟨pre, post, hp⟩
      obtain ⟨h2, hpost⟩ := List.append_eq_nil.mp hp.symm
      obtain ⟨hpre, hneed⟩ := List.append_eq_nil.mp h2
      subst hpre; subst hneed; subst hpost
      rfl
  | cons a t ih =>
    rw [containsSub]
    split
    · rename_i hsw
      obtain ⟨u, hu⟩ := startsWithL_iff.mp hsw
      simp only [true_iff]
      exact ⟨[], u, by rw [← hu]; rfl⟩
    · rename_i hsw
      rw [ih]
      constructor
      · rintro ⟨pre, post, rfl⟩
        exact ⟨a :: pre, post, rfl⟩
      · rintro ⟨pre, post, hp⟩
        cases pre with
        | nil =>
          exfalso
          apply hsw
          rw [startsWithL_iff]
          simp only [List.nil_append] at hp
          exact ⟨post, hp.symm⟩
        | cons x xs =>
          rw [List.cons_append, List.cons_append] at hp
          injection hp with h1 h2
          exact ⟨xs, post, h2⟩

/-! ## The canonical record and `verifyParsedContent` -/

/-- Canonical experience entry (all fields the schema declares). -/
structure ExperienceEntry where
  title : List Char := []
  position : List Char := []
  company : List Char := []
  location : List Char := []
  period : List Char := []
  responsibilities : List (List Char) := []
  description : List (List Char) := []

/-- Canonical education entry. -/
structure EducationEntry where
  degree : List Char := []
  institution : List Char := []
  location : List Char := []
  period : List Char := []
  details : List (List Char) := []

/-- Canonical project entry. -/
structure ProjectEntry where
  name : List Char := []
  timeframe : List Char := []
  link : List Char := []
  description : List (List Char) := []

/-- Canonical honors entry. -/
structure HonorEntry where
  title : List Char := []
  date : List Char := []
  description : List (List Char) := []

/-- The canonical resume record consumed by the coverage verifier. -/
structure ResumeRecord where
  name : List Char := []
  title : List Char := []
  email : List Char := []
  phone : List Char := []
  linkedin : List Char := []
  github : List Char := []
  address : List Char := []
  location : List Char := []
  summary : List Char := []
  experience : List ExperienceEntry := []
  education : List EducationEntry := []
  skills : List (List Char) := []
  languages : List (List Char) := []
  certifications : List (List Char) := []
  projects : List ProjectEntry := []
  honors : List HonorEntry := []
  references : List (List Char) := []

/-- The text pieces `verifyParsedContent` emits into
`parsedTextContent`, in source order: name, email, phone, address,
linkedin, summary; per experience entry company, position, period and
the `description` elements; per education entry institution, degree,
period and the `details` elements; then all skills, languages and
certifications.  (`title`, `github`, `location`, experience
`responsibilities`, `projects`, `honors` and `references` are never
emitted.) -/
def emittedPieces (pd : ResumeRecord) : List (List Char) :=
  [pd.name, pd.email, pd.phone, pd.address, pd.linkedin, pd.summary]
  ++ (pd.experience.map (fun e =>
       [e.company, e.position, e.period] ++ e.description)).flatten
  ++ (pd.education.map (fun e =>
       [e.institution, e.degree, e.period] ++ e.details)).flatten
  ++ pd.skills ++ pd.languages ++ pd.certifications

/-- Concatenate pieces, each followed by one space (`+= piece + " "`). -/
def glue : List (List Char) → List Char
  | [] => []
  | p :: ps => p ++ ' ' :: glue ps

/-- The `parsedTextContent` string built by `verifyParsedContent`. -/
def parsedTextContent (pd : ResumeRecord) : List Char :=
  glue (emittedPieces pd)

/-- The scored chunks: split the original text on blank lines, trim
each chunk, keep those longer than 10 characters. -/
def scoredChunks (originalText : List Char) : List (List Char) :=
  ((splitBlank originalText).map trimL).filter (fun c => c.length > 10)

/-- The words of a chunk the verifier scores: split the normalized
chunk on spaces and keep words of length greater than 3. -/
def chunkWordsOf (chunk : List Char) : List (List Char) :=
  (splitOnSpace (normalizeText chunk)).filter (fun w => w.length > 3)

/-- Whether a chunk is judged missing: the captured fraction (the
literal `0.7` taken as the exact rational 7/10) is below 0.7 and the
chunk has more than 3 qualifying words. -/
def chunkMissing (normalizedParsedContent chunk : List Char) : Bool :=
  let chunkWords := chunkWordsOf chunk
  let wordsCaptured :=
    chunkWords.countP (fun w => containsSub normalizedParsedContent w)
  let wordCaptureRatio : ℚ :=
    if chunkWords.length > 0 then
      (wordsCaptured : ℚ) / chunkWords.length
    else 0
  decide (wordCaptureRatio < 7 / 10) && decide (chunkWords.length > 3)

/-- The chunk `forEach` of `verifyParsedContent`: returns the missing
chunks (in order) and the number of captured chunks. -/
def verifyLoop (normalizedParsedContent : List Char) :
    List (List Char) → List (List Char) × Nat
  | [] => ([], 0)
  | c :: cs =>
    let rest := verifyLoop normalizedParsedContent cs
    if chunkMissing normalizedParsedContent c then (c :: rest.1, rest.2)
    else (rest.1, rest.2 + 1)

/-- The verifier's result object. -/
structure CoverageReport where
  coveragePercentage : ℚ
  missingContent : List (List Char)

/-- `verifyParsedContent` from src/verificationUtils.js. -/
def verifyParsedContent (originalText : List Char) (pd : ResumeRecord) :
    CoverageReport :=
  let normalizedParsedContent := normalizeText (parsedTextContent pd)
  let originalTextChunks := scoredChunks originalText
  let res := verifyLoop normalizedParsedContent originalTextChunks
  let totalChunks := originalTextChunks.length
  { coveragePercentage :=
      if totalChunks > 0 then (res.2 : ℚ) / totalChunks * 100 else 100,
    missingContent := res.1 }

theorem verifyLoop_spec (p : List Char) (l : List (List Char)) :
    verifyLoop p l = (l.filter (chunkMissing p),
      (l.filter (fun c => !chunkMissing p c)).length) := by
  induction l with
  | nil => rfl
  | cons c cs ih =>
    simp only [verifyLoop, ih]
    cases h : chunkMissing p c <;> simp [List.filter_cons, h]

theorem length_filter_partition (p : α → Bool) (l : List α) :
    (l.filter p).length + (l.filter (fun a => !p a)).length = l.length := by
  induction l with
  | nil => rfl
  | cons a l ih =>
    cases h : p a <;> simp [List.filter_cons, h, ← ih] <;> omega

theorem missingContent_eq (text : List Char) (pd : ResumeRecord) :
    (verifyParsedContent text pd).missingContent
      = (scoredChunks text).filter
          (chunkMissing (normalizeText (parsedTextContent pd))) := by
  simp only [verifyParsedContent, verifyLoop_spec]

theorem capturedCount_eq (text : List Char) (pd : ResumeRecord) :
    (verifyLoop (normalizeText (parsedTextContent pd)) (scoredChunks text)).2
      = ((scoredChunks text).filter (fun c =>
          !chunkMissing (normalizeText (parsedTextContent pd)) c)).length := by
  rw [verifyLoop_spec]

/-! ## Claims about the coverage verifier -/

/-- C10: the coverage report is internally consistent: the percentage
lies between 0 and 100, `missingContent` is exactly the list of scored
chunks failing the capture test, in source order and with their
original (trimmed but not lower-cased or whitespace-collapsed) text,
and the captured-chunk count plus the number of missing chunks equals
the total number of scored chunks. -/
theorem C10_coverage_report_consistent (text : List Char) (pd : ResumeRecord) :
    0 ≤ (verifyParsedContent text pd).coveragePercentage ∧
    (verifyParsedContent text pd).coveragePercentage ≤ 100 ∧
    (verifyParsedContent text pd).missingContent
      = (scoredChunks text).filter
          (chunkMissing (normalizeText (parsedTextContent pd))) ∧
    (verifyLoop (normalizeText (parsedTextContent pd)) (scoredChunks text)).2
      + (verifyParsedContent text pd).missingContent.length
      = (scoredChunks text).length := by
  have hcount : (verifyLoop (normalizeText (parsedTextContent pd))
        (scoredChunks text)).2
      + (verifyParsedContent text pd).missingContent.length
      = (scoredChunks text).length := by
    rw [capturedCount_eq, missingContent_eq, Nat.add_comm]
    exact length_filter_partition _ _
  have hcple : (verifyLoop (normalizeText (parsedTextContent pd))
      (scoredChunks text)).2 ≤ (scoredChunks text).length := by
    omega
  have hpct : (verifyParsedContent text pd).coveragePercentage
      = if (scoredChunks text).length > 0 then
          ((verifyLoop (normalizeText (parsedTextContent pd))
            (scoredChunks text)).2 : ℚ) / (scoredChunks text).length * 100
        else 100 := rfl
  refine ⟨?_, ?_, missingContent_eq text pd, hcount⟩ <;> rw [hpct]
  · split
    · positivity
    · norm_num
  · split
    · rename_i hpos
      have h1 : ((verifyLoop (normalizeText (parsedTextContent pd))
          (scoredChunks text)).2 : ℚ) ≤ ((scoredChunks text).length : ℚ) := by
        exact_mod_cast hcple
      have h2 : (0 : ℚ) < ((scoredChunks text).length : ℚ) := by
        exact_mod_cast hpos
      rw [div_mul_eq_mul_div, div_le_iff₀ h2]
      nlinarith
    · norm_num

/-- C2: a scored chunk is excluded from `missingContent` (captured)
exactly when the fraction of its words of length greater than 3 that
occur as substrings of the normalized extracted text is at least 0.7,
or the chunk has at most 3 such qualifying words. -/
theorem C2_chunk_captured_iff (text : List Char) (pd : ResumeRecord)
    (c : List Char) (hc : c ∈ scoredChunks text) :
    (c ∉ (verifyParsedContent text pd).missingContent ↔
      ((chunkWordsOf c ≠ [] ∧
        (7 : ℚ) / 10 ≤
          ((chunkWordsOf c).countP (fun w =>
            containsSub (normalizeText (parsedTextContent pd)) w) : ℚ)
            / ((chunkWordsOf c).length : ℚ)) ∨
       (chunkWordsOf c).length ≤ 3)) := by
  rw [missingContent_eq]
  rw [show (c ∉ (scoredChunks text).filter
      (chunkMissing (normalizeText (parsedTextContent pd))) ↔
      ¬ (chunkMissing (normalizeText (parsedTextContent pd)) c = true)) from by
    simp [List.mem_filter, hc]]
  simp only [chunkMissing, Bool.and_eq_true, decide_eq_true_eq, not_and_or,
    not_lt]
  by_cases hnil : chunkWordsOf c = []
  · simp [hnil]
  · have hlen : 0 < (chunkWordsOf c).length := List.length_pos.mpr hnil
    simp only [if_pos hlen]
    constructor
    · rintro (hge | hle)
      · exact Or.inl ⟨hnil, hge⟩
      · exact Or.inr (by omega)
    · rintro (⟨-, hge⟩ | hle)
      · exact Or.inl hge
      · exact Or.inr (by omega)

/-- Source text for the C2 witness: a single scored chunk of exactly
three words longer than three characters. -/
def C2text : List Char := "alpha beta gamma".data

/-- C2 witness: a chunk with exactly 3 qualifying words, none present
in the (empty) extracted text, is still captured. -/
theorem C2_short_chunk_witness :
    C2text ∉ (verifyParsedContent C2text {}).missingContent :=
  (C2_chunk_captured_iff C2text {} C2text (by decide)).mpr
    (Or.inr (by decide))

/-- The record used to refute C6: `github` is a scalar field of the
canonical record, but the verifier never emits it. -/
def C6rec : ResumeRecord := { github := "myhub".data }

/-- C6 counterexample: the claim says the concatenated `extractedText`
contains every scalar field of the record, but a record whose `github`
field is "myhub" (all other fields empty) yields an extracted text
that does not contain "myhub" — `verifyParsedContent` never emits
`github` (nor `title`, `location`, experience `responsibilities`,
`projects`, `honors`, `references`). -/
theorem C6_counterexample_github_dropped :
    ¬ ∃ pre post, parsedTextContent C6rec = pre ++ "myhub".data ++ post := by
  intro h
  exact absurd (containsSub_iff.mpr h) (by decide)

theorem glue_mem_sub {p : List Char} {xs : List (List Char)} (h : p ∈ xs) :
    ∃ pre post, glue xs = pre ++ p ++ post := by
  induction xs with
  | nil => cases h
  | cons x xs ih =>
    rcases List.mem_cons.mp h with rfl | h'
    · exact ⟨[], ' ' :: glue xs, by simp [glue]⟩
    · obtain ⟨pre, post, hpp⟩ := ih h'
      exact ⟨x ++ ' ' :: pre, post, by simp [glue, hpp]⟩

/-- C6 (amended): the extracted text contains every piece the code
emits — the scalar fields name, email, phone, address, linkedin and
summary, each experience entry's company, position, period and
`description` elements, each education entry's institution, degree,
period and `details` elements, and every skills, languages and
certifications element.  The remaining fields of the record (`title`,
`github`, `location`, experience `responsibilities`, `projects`,
`honors`, `references`) are not emitted and may be absent from it. -/
theorem C6_extracted_contains_emitted (pd : ResumeRecord) :
    ∀ p ∈ emittedPieces pd,
      ∃ pre post, parsedTextContent pd = pre ++ p ++ post :=
  fun _ hp => glue_mem_sub hp

/-- A concrete record for the C6 witness. -/
def C6wrec : ResumeRecord := { name := "Ann".data }

/-- C6 witness: the name "Ann" occurs in the extracted text built from
a record whose name is "Ann". -/
theorem C6_witness :
    ∃ pre post, parsedTextContent C6wrec = pre ++ "Ann".data ++ post :=
  C6_extracted_contains_emitted C6wrec "Ann".data (by decide)

/-! ## A small regex engine for the extractor patterns

Every quantified atom in the basic-info regexes is a character class,
so a pattern is a sequence of class tokens with repetition bounds
(optional groups and top-level alternation are expanded into ordered
alternative token sequences, preserving the JS engine's greedy,
leftmost-first backtracking order). -/

/-- One regex atom: a character class with repetition bounds
(`hi = none` means unbounded). -/
structure Token where
  p : Char → Bool
  lo : Nat
  hi : Option Nat

/-- Length of the longest run of class characters at the front. -/
def leadCount (p : Char → Bool) : List Char → Nat
  | [] => 0
  | c :: cs => if p c then leadCount p cs + 1 else 0

/-- `[hi, hi-1, ..., lo]` — greedy exploration order. -/
def descRange (hi lo : Nat) : List Nat :=
  (List.range (hi - lo + 1)).map (fun i => hi - i)

/-- Match a token sequence at the start of `cs`, returning the length
of the match chosen by greedy backtracking. -/
def matchToks : List Token → List Char → Option Nat
  | [], _ => some 0
  | t :: ts, cs =>
    let avail := leadCount t.p cs
    let hi := match t.hi with
      | some m => min m avail
      | none => avail
    if hi < t.lo then none
    else (descRange hi t.lo).findSome? (fun k =>
      (matchToks ts (cs.drop k)).map (fun m => k + m))

/-- `line.match(re)` giving the first (leftmost) match: at each
position try the alternatives in order. -/
def scanMatch (alts : List (List Token)) : List Char → Option (List Char)
  | [] =>
    (alts.findSome? (fun ts => matchToks ts [])).map
      (fun n => ([] : List Char).take n)
  | c :: cs =>
    match alts.findSome? (fun ts => matchToks ts (c :: cs)) with
    | some n => some ((c :: cs).take n)
    | none => scanMatch alts cs

/-- `\d{lo,hi}`. -/
def digitTok (lo : Nat) (hi : Option Nat) : Token := ⟨Char.isDigit, lo, hi⟩

/-- A literal character. -/
def litTok (c : Char) : Token := ⟨fun x => x = c, 1, some 1⟩

/-- A case-insensitive literal character (`c` given lower-case). -/
def ciTok (c : Char) : Token := ⟨fun x => x.toLower = c, 1, some 1⟩

/-- An optional occurrence of a class (`{0,1}`). -/
def optTok (p : Char → Bool) : Token := ⟨p, 0, some 1⟩

/-- `[a-zA-Z0-9._%+-]`. -/
def emailLocalChar (c : Char) : Bool :=
  c.isAlpha || c.isDigit || c = '.' || c = '_' || c = '%' || c = '+' || c = '-'

/-- `[a-zA-Z0-9.-]`. -/
def emailDomainChar (c : Char) : Bool :=
  c.isAlpha || c.isDigit || c = '.' || c = '-'

/-- `[a-zA-Z0-9-]`. -/
def alnumDashChar (c : Char) : Bool :=
  c.isAlpha || c.isDigit || c = '-'

/-- `[\s.-]` (also written `[-.\s]`). -/
def phoneSepChar (c : Char) : Bool :=
  jsWhitespace c || c = '.' || c = '-'

/-- `/[a-zA-Z0-9._%+-]+@[a-zA-Z0-9.-]+\.[a-zA-Z]{2,}/` (both parsers'
email regex). -/
def emailToks : List (List Token) :=
  [[⟨emailLocalChar, 1, none⟩, litTok '@', ⟨emailDomainChar, 1, none⟩,
    litTok '.', ⟨Char.isAlpha, 2, none⟩]]

/-- `/(\+\d{1,2}\s?)?\(?\d{3}\)?[\s.-]?\d{3}[\s.-]?\d{4}/` (both
parsers' phone regex); the optional leading group is expanded into the
group-present alternative followed by the group-absent one. -/
def phoneToks : List (List Token) :=
  let core := [optTok (· = '('), digitTok 3 (some 3), optTok (· = ')'),
    optTok phoneSepChar, digitTok 3 (some 3), optTok phoneSepChar,
    digitTok 4 (some 4)]
  [[litTok '+', digitTok 1 (some 2), optTok jsWhitespace] ++ core, core]

/-- `/linkedin\.com\/in\/[a-zA-Z0-9-]+/i` (default profile). -/
def defaultLinkedinToks : List (List Token) :=
  ["linkedin.com/in/".data.map ciTok ++ [⟨alnumDashChar, 1, none⟩]]

/-- `/(?:linkedin\.com\/in\/|linkedin:)([a-zA-Z0-9-]+)/i` (serter
profile), alternation expanded in order. -/
def serterLinkedinToks : List (List Token) :=
  ["linkedin.com/in/".data.map ciTok ++ [⟨alnumDashChar, 1, none⟩],
   "linkedin:".data.map ciTok ++ [⟨alnumDashChar, 1, none⟩]]

/-- `/\d{3}[-.\s]?\d{3}[-.\s]?\d{4}/` (serter's title contact test). -/
def usPhoneTestToks : List (List Token) :=
  [[digitTok 3 (some 3), optTok phoneSepChar, digitTok 3 (some 3),
    optTok phoneSepChar, digitTok 4 (some 4)]]

/-- `/[A-Z]{2}/.test(line)`. -/
def hasTwoUpper (line : List Char) : Bool :=
  (scanMatch [[⟨Char.isUpper, 2, some 2⟩]] line).isSome

/-- `/\d{5}/.test(line)`. -/
def hasFiveDigits (line : List Char) : Bool :=
  (scanMatch [[digitTok 5 (some 5)]] line).isSome

/-! ## Basic-info extraction (default and serter profiles) -/

/-- Output of the default profile's `extractBasicInfo`. -/
structure DefaultBasicInfo where
  name : List Char := []
  email : List Char := []
  phone : List Char := []
  linkedin : List Char := []
  address : List Char := []

/-- The default profile's address heuristic: a street word, a state
hint, and a five-digit run. -/
def defaultAddressTest (line : List Char) : Bool :=
  (containsSub line "St".data || containsSub line "Ave".data ||
   containsSub line "Road".data || containsSub line "Blvd".data ||
   containsSub line "Street".data || containsSub line "Avenue".data) &&
  (hasTwoUpper line || containsSub line "NY".data ||
   containsSub line "CA".data || containsSub line "TX".data) &&
  hasFiveDigits line

/-- `extractBasicInfo` of src/parsers/default-parser.js: the name is
the first line; email, phone, linkedin and address are each taken from
the first line of the whole document that matches — the loops run over
all lines, not a bounded prefix. -/
def defaultExtractBasicInfo (lines : List (List Char)) : DefaultBasicInfo :=
  { name := lines.headD []
    email := (lines.findSome? (fun l => scanMatch emailToks l)).getD []
    phone := (lines.findSome? (fun l => scanMatch phoneToks l)).getD []
    linkedin :=
      (lines.findSome? (fun l => scanMatch defaultLinkedinToks l)).getD []
    address := (lines.find? defaultAddressTest).getD [] }

/-- Output of the serter profile's `extractBasicInfo`. -/
structure SerterBasicInfo where
  name : List Char := []
  title : List Char := []
  email : List Char := []
  phone : List Char := []
  linkedin : List Char := []
  location : List Char := []

/-- The serter title rule: the second line, unless it contains an "@"
or a US-phone-shaped digit run. -/
def serterTitleOf (lines : List (List Char)) : List Char :=
  match lines with
  | _ :: l1 :: _ =>
    if !containsSub l1 "@".data && !(scanMatch usPhoneTestToks l1).isSome
    then l1 else []
  | _ => []

/-- The serter location indicators. -/
def locationIndicators : List (List Char) :=
  ["located in".data, "location:".data, "address:".data, "city:".data]

/-- The serter location rule for one line. -/
def serterLocTest (line : List Char) : Bool :=
  locationIndicators.any
    (fun ind => containsSub (line.map Char.toLower) ind) ||
  (containsSub line ",".data && hasTwoUpper line)

/-- `extractBasicInfo` of src/parsers/serter-parser.js: name from the
first line, title from the second; email, phone and linkedin are
searched in `lines.slice(0, 10)` only, location in
`lines.slice(0, 15)` only. -/
def serterExtractBasicInfo (lines : List (List Char)) : SerterBasicInfo :=
  { name := lines.headD []
    title := serterTitleOf lines
    email := ((lines.take 10).findSome? (fun l => scanMatch emailToks l)).getD []
    phone := ((lines.take 10).findSome? (fun l => scanMatch phoneToks l)).getD []
    linkedin :=
      ((lines.take 10).findSome? (fun l => scanMatch serterLinkedinToks l)).getD []
    location := ((lines.take 15).find? serterLocTest).getD [] }

/-! ## Basic-info extraction (student profile)

The student profile (the second module of
src/parsers/default-parser.js, registered as "student") takes name and
title from the first two lines and runs every contact scan over
`contactInfoLines = lines.slice(0, 15)`.  Its location heuristic calls
`cityOrCountry.exec(line)` on a `/g` regex declared outside the loop,
so the regex's `lastIndex` persists across loop iterations; the
embedding threads it explicitly. -/

/-- Like `matchToks`, but the empty token list defers to an `ender`
(modelling a trailing anchored alternative such as `(?:$|\s)`);
returns (length the tokens consumed, length the ender consumed). -/
def matchToksT (ender : List Char → Option Nat) :
    List Token → List Char → Option (Nat × Nat)
  | [], cs => (ender cs).map (fun t => (0, t))
  | t :: ts, cs =>
    let avail := leadCount t.p cs
    let hi := match t.hi with
      | some m => min m avail
      | none => avail
    if hi < t.lo then none
    else (descRange hi t.lo).findSome? (fun k =>
      (matchToksT ender ts (cs.drop k)).map (fun r => (k + r.1, r.2)))

/-- `[A-Za-z\s]`. -/
def cityLetterChar (c : Char) : Bool :=
  c.isAlpha || jsWhitespace c

/-- `(?:$|\s)` against the rest of the line: the end anchor, else one
whitespace character (mutually exclusive, so order is moot). -/
def cityEnder : List Char → Option Nat
  | [] => some 0
  | c :: _ => if jsWhitespace c then some 1 else none

/-- First alternative of the capture group
`([A-Za-z\s]+,\s*[A-Za-z\s]+|[A-Za-z\s]+)`. -/
def cityAlt1 : List Token :=
  [⟨cityLetterChar, 1, none⟩, litTok ',', ⟨jsWhitespace, 0, none⟩,
   ⟨cityLetterChar, 1, none⟩]

/-- Second alternative of the capture group. -/
def cityAlt2 : List Token :=
  [⟨cityLetterChar, 1, none⟩]

/-- One attempt of `/(?:^|\s)(...)(?:$|\s)/` at absolute position `p`
of the line (`^` matches only at position 0 and is tried before `\s`;
the capture alternatives are tried in order, each with greedy
backtracking into the ender): (captured characters, total length of
the whole match). -/
def matchCityAt (line : List Char) (p : Nat) : Option (List Char × Nat) :=
  let cs := line.drop p
  let pres : List Nat :=
    (if p = 0 then [0] else []) ++
    (match cs with
     | c :: _ => if jsWhitespace c then [1] else []
     | [] => [])
  pres.findSome? (fun pre =>
    let cs2 := cs.drop pre
    ([cityAlt1, cityAlt2]).findSome? (fun toks =>
      (matchToksT cityEnder toks cs2).map
        (fun r => (cs2.take r.1, pre + r.1 + r.2))))

/-- `cityOrCountry.exec(line)` with the `/g` regex's `lastIndex = li`:
the leftmost match at a position ≥ `li`, as
some (match[1], updated lastIndex); none means the regex resets
`lastIndex` to 0. -/
def cityExec (li : Nat) (line : List Char) : Option (List Char × Nat) :=
  ((List.range (line.length + 1 - li)).map (li + ·)).findSome?
    (fun p => (matchCityAt line p).map (fun r => (r.1, p + r.2)))

/-- `locationKeywords` of the student profile. -/
def locationKeysStu : List (List Char) :=
  ["location:".data, "address:".data, "based in".data, "residing in".data]

/-- The needle (given lower-case) is a case-insensitive prefix of the
hay. -/
def ciStartsWith : List Char → List Char → Bool
  | [], _ => true
  | _ :: _, [] => false
  | a :: as, b :: bs => b.toLower = a && ciStartsWith as bs

/-- The keyword (with its length) matching at this position, if any —
alternatives in the order of /location:|address:|based in|residing in/gi. -/
def locKeyAt (cs : List Char) : Option Nat :=
  locationKeysStu.findSome? (fun k =>
    if ciStartsWith k cs then some k.length else none)

/-- `line.replace(/location:|address:|based in|residing in/gi, "")`:
scan left to right, drop each keyword occurrence (fuel is the line
length; each step consumes at least one character). -/
def stripLocKeysGo : Nat → List Char → List Char
  | 0, cs => cs
  | _ + 1, [] => []
  | fuel + 1, c :: cs =>
    match locKeyAt (c :: cs) with
    | some k => stripLocKeysGo fuel ((c :: cs).drop k)
    | none => c :: stripLocKeysGo fuel cs

def stripLocKeys (line : List Char) : List Char :=
  stripLocKeysGo line.length line

/-- `/\+\d{1,3}\s\d{3}\s\d{3}\s\d{3,4}/` (the student `isContactInfo`
international phone test). -/
def studentIntlPhoneToks : List (List Token) :=
  [[litTok '+', digitTok 1 (some 3), ⟨jsWhitespace, 1, some 1⟩,
    digitTok 3 (some 3), ⟨jsWhitespace, 1, some 1⟩, digitTok 3 (some 3),
    ⟨jsWhitespace, 1, some 1⟩, digitTok 3 (some 4)]]

/-- The student profile's `isContactInfo(line)`: contains "@",
"linkedin" or "github" (case-sensitive), or matches the US or
international phone pattern. -/
def isContactInfoStu (line : List Char) : Bool :=
  containsSub line "@".data || containsSub line "linkedin".data ||
  containsSub line "github".data ||
  (scanMatch usPhoneTestToks line).isSome ||
  (scanMatch studentIntlPhoneToks line).isSome

/-- `/(?:\+\d{1,3}[-.\s]?)?\(?(?:\d{1,4})\)?[-.\s]?\d{1,4}[-.\s]?\d{1,9}/`
(first student phone regex); the optional leading group is expanded
into the group-present alternative followed by the group-absent one. -/
def studentPhone1Toks : List (List Token) :=
  let core := [optTok (· = '('), digitTok 1 (some 4), optTok (· = ')'),
    optTok phoneSepChar, digitTok 1 (some 4), optTok phoneSepChar,
    digitTok 1 (some 9)]
  [[litTok '+', digitTok 1 (some 3), optTok phoneSepChar] ++ core, core]

/-- `/\+\d{2}\s\d{3}\s\d{3}\s\d{3}/` (third student phone regex; the
second is the US pattern `usPhoneTestToks`). -/
def studentPhone3Toks : List (List Token) :=
  [[litTok '+', digitTok 2 (some 2), ⟨jsWhitespace, 1, some 1⟩,
    digitTok 3 (some 3), ⟨jsWhitespace, 1, some 1⟩, digitTok 3 (some 3),
    ⟨jsWhitespace, 1, some 1⟩, digitTok 3 (some 3)]]

/-- `/\+\d{1,3}\s\d{2,3}\s\d{3}\s\d{3,4}/` (fourth student phone
regex). -/
def studentPhone4Toks : List (List Token) :=
  [[litTok '+', digitTok 1 (some 3), ⟨jsWhitespace, 1, some 1⟩,
    digitTok 2 (some 3), ⟨jsWhitespace, 1, some 1⟩, digitTok 3 (some 3),
    ⟨jsWhitespace, 1, some 1⟩, digitTok 3 (some 4)]]

/-- The second student linkedin regex (case-insensitive): the literal
"linkedin", an optional colon, any run of whitespace, then one or more
letters, digits, slashes or dashes (the first regex is
`defaultLinkedinToks`). -/
def studentLinkedin2Toks : List Token :=
  "linkedin".data.map ciTok ++
  [optTok (· = ':'), ⟨jsWhitespace, 0, none⟩,
   ⟨fun c => c.isAlpha || c.isDigit || c = '/' || c = '-', 1, none⟩]

/-- `/github\.com\/[a-zA-Z0-9-]+/gi`. -/
def studentGithubToks : List (List Token) :=
  ["github.com/".data.map ciTok ++ [⟨alnumDashChar, 1, none⟩]]

/-- The student title rule: the second line, unless `isContactInfo`
holds of it. -/
def studentTitleOf (lines : List (List Char)) : List Char :=
  match lines with
  | _ :: l1 :: _ => if !isContactInfoStu l1 then l1 else []
  | _ => []

/-- The student location loop over `contactInfoLines`, threading the
city regex's `/g` `lastIndex`: a keyword line yields the line with the
keywords removed and trimmed; otherwise a non-contact line not
mentioning "university" or the name is probed with `exec`, whose
capture is kept only when longer than 2 characters (a failed or short
probe moves to the next line with the updated `lastIndex`). -/
def studentLocGo (name : List Char) : Nat → List (List Char) → List Char
  | _, [] => []
  | li, line :: rest =>
    if locationKeysStu.any
        (fun k => containsSub (line.map Char.toLower) k) then
      trimL (stripLocKeys line)
    else if !isContactInfoStu line &&
        !containsSub (line.map Char.toLower) "university".data &&
        !containsSub line name then
      match cityExec li line with
      | some (cap, li2) =>
        if 2 < cap.length then trimL cap
        else studentLocGo name li2 rest
      | none => studentLocGo name 0 rest
    else studentLocGo name li rest

/-- Output of the student profile's `extractBasicInfo`. -/
structure StudentBasicInfo where
  name : List Char := []
  title : List Char := []
  email : List Char := []
  phone : List Char := []
  linkedin : List Char := []
  github : List Char := []
  location : List Char := []

/-- `extractBasicInfo` of the student profile: name and title from the
first two lines; email, phone (four regexes in order per line),
linkedin (two regexes in order per line), github and location are all
searched in `lines.slice(0, 15)` only. -/
def studentExtractBasicInfo (lines : List (List Char)) : StudentBasicInfo :=
  let cil := lines.take 15
  { name := lines.headD []
    title := studentTitleOf lines
    email := (cil.findSome? (fun l => scanMatch emailToks l)).getD []
    phone := (cil.findSome? (fun l =>
      [studentPhone1Toks, usPhoneTestToks, studentPhone3Toks,
       studentPhone4Toks].findSome? (fun alts => scanMatch alts l))).getD []
    linkedin := (cil.findSome? (fun l =>
      [defaultLinkedinToks, [studentLinkedin2Toks]].findSome?
        (fun alts => scanMatch alts l))).getD []
    github := (cil.findSome? (fun l => scanMatch studentGithubToks l)).getD []
    location := studentLocGo (lines.headD []) 0 cil }

/-! ## Claims about basic-info extraction -/

/-- A document whose only email address sits on line 17 (index 16),
past any 10-to-15-line prefix. -/
def C7lines : List (List Char) :=
  List.replicate 16 "filler line".data ++ ["contact me a@b.co".data]

/-- C7 counterexample: the claim says every profile's basic-info
extraction examines only the first 10–15 non-empty lines, so a contact
field occurring only later stays at its empty-string default.  The
default profile's loops run over all lines: on a document whose only
email is on line 17 it still extracts that email. -/
theorem C7_counterexample_default_scans_all :
    (defaultExtractBasicInfo C7lines).email = "a@b.co".data ∧
    15 < C7lines.length := ⟨rfl, by decide⟩

theorem headD_take15 (lines : List (List Char)) :
    (lines.take 15).headD [] = lines.headD [] := by
  cases lines <;> rfl

theorem serterTitleOf_take15 (lines : List (List Char)) :
    serterTitleOf (lines.take 15) = serterTitleOf lines := by
  cases lines with
  | nil => rfl
  | cons a l => cases l <;> rfl

theorem serter_bounded_take15 (lines : List (List Char)) :
    serterExtractBasicInfo lines = serterExtractBasicInfo (lines.take 15) := by
  have h10 : (lines.take 15).take 10 = lines.take 10 := by
    rw [List.take_take]; norm_num
  have h15 : (lines.take 15).take 15 = lines.take 15 := by
    rw [List.take_take]; norm_num
  unfold serterExtractBasicInfo
  rw [h10, h15, headD_take15, serterTitleOf_take15]

theorem studentTitleOf_take15 (lines : List (List Char)) :
    studentTitleOf (lines.take 15) = studentTitleOf lines := by
  cases lines with
  | nil => rfl
  | cons a l => cases l <;> rfl

theorem student_bounded_take15 (lines : List (List Char)) :
    studentExtractBasicInfo lines = studentExtractBasicInfo (lines.take 15) := by
  have h15 : (lines.take 15).take 15 = lines.take 15 := by
    rw [List.take_take]; norm_num
  unfold studentExtractBasicInfo
  rw [h15, headD_take15, studentTitleOf_take15]

/-- C7 (amended): the serter and student profiles examine only a
bounded prefix of the document — both results are unchanged if the
document is truncated to its first 15 non-empty lines (serter: name
and title from the first two lines, the contact regexes over the first
10, location over the first 15; student: name and title from the first
two lines, all contact and location scans over the first 15) — so a
contact field whose only occurrence is after that prefix is left at
its empty-string default.  The default profile has no such bound: its
email, phone, linkedin and address loops scan the whole document (see
the counterexample). -/
theorem C7_bounded_prefix (lines : List (List Char)) :
    serterExtractBasicInfo lines = serterExtractBasicInfo (lines.take 15) ∧
    studentExtractBasicInfo lines = studentExtractBasicInfo (lines.take 15) :=
  ⟨serter_bounded_take15 lines, student_bounded_take15 lines⟩

/-! ## Section-header recognition (segmenter)

Both segmenters lower-case each line (`lines[i].toLowerCase()`) and
test it against every phrase of a header table.  The tables and the
two match policies are transcribed below. -/

/-- `header.toUpperCase()`. -/
def upperL (h : List Char) : List Char := h.map Char.toUpper

/-- `header.charAt(0).toUpperCase() + header.slice(1)`. -/
def capitalizeL : List Char → List Char
  | [] => []
  | c :: cs => c.toUpper :: cs

/-- All header phrases of src/parsers/default-parser.js
`extractSections` (sections flattened: summary, experience, education,
skills, languages, certifications). -/
def defaultSectionHeaders : List (List Char) :=
  ["summary", "professional summary", "profile", "about me", "objective",
   "experience", "work experience", "employment history", "work history",
   "professional experience",
   "education", "academic background", "academic history",
   "skills", "technical skills", "core competencies", "competencies",
   "key skills",
   "languages", "language proficiency",
   "certifications", "certificates",
   "professional certifications"].map String.data

/-- All header phrases of src/parsers/serter-parser.js
`extractSections` (sections flattened: summary, experience, education,
skills, projects, certifications, languages). -/
def serterSectionHeaders : List (List Char) :=
  ["summary", "professional summary", "profile", "about me", "about",
   "experience", "work experience", "employment history", "work history",
   "professional experience",
   "education", "academic background", "academic history", "qualifications",
   "skills", "technical skills", "core competencies", "competencies",
   "key skills", "technical competencies",
   "projects", "key projects", "personal projects", "professional projects",
   "certifications", "certificates", "credentials",
   "professional certifications",
   "languages", "language proficiency", "spoken languages"].map String.data

/-- The default segmenter's per-phrase test on the lowered line:
`line === header || line.includes(header + ":") ||
line.includes(header + " ") || line === header.toUpperCase() ||
line === capitalize(header)` — note the colon and space forms are
substring containment, not prefix tests. -/
def defaultHeaderTest (line h : List Char) : Bool :=
  line == h || containsSub line (h ++ ":".data) ||
  containsSub line (h ++ " ".data) || line == upperL h ||
  line == capitalizeL h

/-- Whether the default segmenter treats `raw` as a section header. -/
def defaultIsHeaderLine (raw : List Char) : Bool :=
  defaultSectionHeaders.any (defaultHeaderTest (raw.map Char.toLower))

/-- The serter segmenter's per-phrase test on the lowered line:
`line === header || line === header.toUpperCase() ||
line.startsWith(header + ":") ||
line.startsWith(header.toUpperCase() + ":") ||
line === capitalize(header)` — no space-separated prefix form at
all. -/
def serterHeaderTest (line h : List Char) : Bool :=
  line == h || line == upperL h ||
  startsWithL (h ++ ":".data) line ||
  startsWithL (upperL h ++ ":".data) line ||
  line == capitalizeL h

/-- Whether the serter segmenter treats `raw` as a section header. -/
def serterIsHeaderLine (raw : List Char) : Bool :=
  serterSectionHeaders.any (serterHeaderTest (raw.map Char.toLower))

/-- The match policy exactly as the specification words it (this
definition follows the spec, not the code, for comparison): exact
equality, equality to the phrase in upper-case, the phrase immediately
followed by a colon, or the phrase followed by a space as a prefix. -/
def specHeaderForm (line h : List Char) : Bool :=
  line == h || line == upperL h ||
  containsSub line (h ++ ":".data) ||
  startsWithL (h ++ " ".data) line

/-- The spec's header recognition over a phrase table. -/
def specIsHeaderLine (tbl : List (List Char)) (raw : List Char) : Bool :=
  tbl.any (specHeaderForm (raw.map Char.toLower))

theorem toLower_not_upper (c : Char) : (Char.toLower c).isUpper = false := by
  unfold Char.toLower
  by_cases h : c.toNat ≥ 65 ∧ c.toNat ≤ 90
  · rw [if_pos h]
    obtain ⟨h1, h2⟩ := h
    generalize hg : c.toNat = n at h1 h2 ⊢
    interval_cases n <;> decide
  · rw [if_neg h]
    simp only [Char.isUpper]
    rw [not_and_or] at h
    rcases h with h1 | h1
    · have hv : ¬((65 : UInt32) ≤ c.val) := by
        intro hc
        apply h1
        have h2 := BitVec.le_def.mp (UInt32.le_def.mp hc)
        simpa using h2
      simp [hv]
    · have hv : ¬(c.val ≤ (90 : UInt32)) := by
        intro hc
        apply h1
        have h2 := BitVec.le_def.mp (UInt32.le_def.mp hc)
        simpa using h2
      simp [hv]

theorem map_toLower_ne_upper_cons {raw rest : List Char} {d : Char}
    (hd : d.isUpper = true) : raw.map Char.toLower ≠ d :: rest := by
  cases raw with
  | nil => simp
  | cons c cs =>
    intro hEq
    rw [List.map_cons] at hEq
    have h1 : Char.toLower c = d := (List.cons.inj hEq).1
    have h2 := toLower_not_upper c
    rw [h1, hd] at h2
    exact Bool.noConfusion h2

theorem startsWithL_toLower_upper (raw : List Char) {rest : List Char} {d : Char}
    (hd : d.isUpper = true) :
    startsWithL (d :: rest) (raw.map Char.toLower) = false := by
  cases raw with
  | nil => rfl
  | cons c cs =>
    rw [List.map_cons]
    by_cases h : d = Char.toLower c
    · exfalso
      have h2 := toLower_not_upper c
      rw [← h, hd] at h2
      exact Bool.noConfusion h2
    · simp [startsWithL, h]

/-- Every table phrase is nonempty and upper-cases to an upper-case
head character. -/
def headUpperOK : List Char → Bool
  | [] => false
  | c :: _ => (Char.toUpper c).isUpper

theorem defaultHeadsU : defaultSectionHeaders.all headUpperOK = true := by decide

theorem serterHeadsU : serterSectionHeaders.all headUpperOK = true := by decide

/-- C8 counterexample facts: the default segmenter accepts
"my experience rocks" (the phrase+space form is substring containment,
not a prefix test), which the spec's stated policy rejects; the serter
segmenter rejects "experience and more" (it has no phrase+space form),
which the spec's stated policy accepts. -/
theorem C8_counterexample_policy :
    defaultIsHeaderLine "my experience rocks".data = true ∧
    specIsHeaderLine defaultSectionHeaders "my experience rocks".data = false ∧
    serterIsHeaderLine "experience and more".data = false ∧
    specIsHeaderLine serterSectionHeaders "experience and more".data = true := by
  refine ⟨by decide, by decide, by decide, by decide⟩

/-- C8 (amended): exact characterization of header recognition.  The
default segmenter accepts a line exactly when the lowered line equals
a table phrase, or contains the phrase immediately followed by a colon
anywhere (not only as a prefix), or contains the phrase followed by a
space anywhere (substring containment, not the spec's prefix match).
The serter segmenter accepts exactly equality or the phrase+colon
prefix; it has no phrase+space form.  In both, the upper-case-equality
and capitalized-equality branches of the source are dead, because the
tested line has been lower-cased and every table phrase starts with a
letter. -/
theorem C8_header_match_exact (raw : List Char) :
    (defaultIsHeaderLine raw = true ↔
      ∃ h ∈ defaultSectionHeaders,
        raw.map Char.toLower = h ∨
        containsSub (raw.map Char.toLower) (h ++ ":".data) = true ∨
        containsSub (raw.map Char.toLower) (h ++ " ".data) = true) ∧
    (serterIsHeaderLine raw = true ↔
      ∃ h ∈ serterSectionHeaders,
        raw.map Char.toLower = h ∨
        startsWithL (h ++ ":".data) (raw.map Char.toLower) = true) := by
  constructor
  · constructor
    · intro hT
      rw [defaultIsHeaderLine, List.any_eq_true] at hT
      obtain ⟨h, hmem, htest⟩ := hT
      refine ⟨h, hmem, ?_⟩
      have hOK : headUpperOK h = true := List.all_eq_true.mp defaultHeadsU h hmem
      rw [defaultHeaderTest] at htest
      simp only [Bool.or_eq_true, beq_iff_eq] at htest
      rcases htest with ((((h1 | h2) | h3) | h4) | h5)
      · exact Or.inl h1
      · exact Or.inr (Or.inl h2)
      · exact Or.inr (Or.inr h3)
      · exfalso
        cases h with
        | nil => exact Bool.noConfusion hOK
        | cons c t =>
          exact map_toLower_ne_upper_cons hOK (by simpa [upperL] using h4)
      · exfalso
        cases h with
        | nil => exact Bool.noConfusion hOK
        | cons c t =>
          exact map_toLower_ne_upper_cons hOK (by simpa [capitalizeL] using h5)
    · rintro ⟨h, hmem, hforms⟩
      rw [defaultIsHeaderLine, List.any_eq_true]
      refine ⟨h, hmem, ?_⟩
      rw [defaultHeaderTest]
      rcases hforms with h1 | h2 | h3
      · simp [h1]
      · simp [h2]
      · simp [h3]
  · constructor
    · intro hT
      rw [serterIsHeaderLine, List.any_eq_true] at hT
      obtain ⟨h, hmem, htest⟩ := hT
      refine ⟨h, hmem, ?_⟩
      have hOK : headUpperOK h = true := List.all_eq_true.mp serterHeadsU h hmem
      rw [serterHeaderTest] at htest
      simp only [Bool.or_eq_true, beq_iff_eq] at htest
      rcases htest with ((((h1 | h2) | h3) | h4) | h5)
      · exact Or.inl h1
      · exfalso
        cases h with
        | nil => exact Bool.noConfusion hOK
        | cons c t =>
          exact map_toLower_ne_upper_cons hOK (by simpa [upperL] using h2)
      · exact Or.inr h3
      · exfalso
        cases h with
        | nil => exact Bool.noConfusion hOK
        | cons c t =>
          have h4' : startsWithL (Char.toUpper c :: (t.map Char.toUpper ++ ":".data))
              (raw.map Char.toLower) = true := by
            simpa [upperL] using h4
          rw [startsWithL_toLower_upper raw hOK] at h4'
          exact Bool.noConfusion h4'
      · exfalso
        cases h with
        | nil => exact Bool.noConfusion hOK
        | cons c t =>
          exact map_toLower_ne_upper_cons hOK (by simpa [capitalizeL] using h5)
    · rintro ⟨h, hmem, hforms⟩
      rw [serterIsHeaderLine, List.any_eq_true]
      refine ⟨h, hmem, ?_⟩
      rw [serterHeaderTest]
      rcases hforms with h1 | h2
      · simp [h1]
      · simp [h2]

/-! ## Parser registry and profile selection

src/unnamed/part_001 holds two registry variants sharing the same
three-entry registry (default, serter, student); src/parseOneResume.js
selects parsers from `listParsers()` before reading any file. -/

/-- A parser's registry metadata (name and display name as exported by
the three parser modules). -/
structure PMeta where
  name : String
  displayName : String

def defaultParserMeta : PMeta := ⟨"default", "Default Parser"⟩

def serterParserMeta : PMeta := ⟨"serter", "Serter Format Parser"⟩

def studentParserMeta : PMeta := ⟨"student", "Modern Student Format Parser"⟩

/-- The `parsers` registry object (ordered keys). -/
def parsersRegistry : List (String × PMeta) :=
  [("default", defaultParserMeta), ("serter", serterParserMeta),
   ("student", studentParserMeta)]

/-- `parsers[name]` as an optional lookup. -/
def regLookup (n : String) : Option PMeta :=
  (parsersRegistry.find? (fun p => p.1 == n)).map Prod.snd

/-- First registry variant: `getParser(parserName) {
return parsers[parserName] || parsers.default; }` — an unknown name
silently falls back to the default parser. -/
def getParserV1 (n : String) : PMeta :=
  (regLookup n).getD defaultParserMeta

/-- Second registry variant: `getParser(name) {
return parsers[name] || null; }`. -/
def getParserV2 (n : String) : Option PMeta :=
  regLookup n

/-- `listParsers()` of the first variant (name and display name per
registry entry, registry order). -/
def listParsersV1 : List PMeta :=
  [defaultParserMeta, serterParserMeta, studentParserMeta]

/-- What the second variant's `parseResume(text, parserName)` decides
before any parser runs. -/
inductive SelectOutcome where
  | err (msg : String)
  | useOne (p : PMeta)
  | tryAll

/-- The selection logic of the second variant's `parseResume`: empty
(falsy) text throws "Resume text is required"; a truthy unknown name
throws `Parser "name" not found` (no list of valid names in the
message); otherwise the named parser, or all parsers, run. -/
def parseResumeV2select (text : String) (parserName : Option String) :
    SelectOutcome :=
  if text == "" then .err "Resume text is required"
  else match parserName with
    | some n =>
      if n == "" then .tryAll
      else match getParserV2 n with
        | some p => .useOne p
        | none => .err ("Parser \"" ++ n ++ "\" not found")
    | none => .tryAll

/-- What src/parseOneResume.js decides for a requested parser name:
either the error lines it prints before returning, or the parsers it
will use. -/
inductive OneOutcome where
  | err (msgs : List String)
  | useParsers (ps : List PMeta)

/-- The parser-selection step of `parseOneResume` (lines 40–53): a
truthy name not in `listParsers()` prints
`Error: Parser "name" not found. Available parsers are:` followed by
one `- name (displayName)` line per registered parser, and returns
before any parsing. -/
def parseOneSelect (parserName : Option String) : OneOutcome :=
  match parserName with
  | some n =>
    if n == "" then .useParsers listParsersV1
    else match listParsersV1.find? (fun p => p.name == n) with
      | some p => .useParsers [p]
      | none =>
        .err (("Error: Parser \"" ++ n ++ "\" not found. Available parsers are:") ::
          listParsersV1.map (fun p => "- " ++ p.name ++ " (" ++ p.displayName ++ ")"))
  | none => .useParsers listParsersV1

/-- C9 counterexample facts: the first registry variant resolves the
unknown name "bogus" to the default parser (a parse would proceed with
a substitute profile), and the second variant rejects it with a
message that names no registered parser, so the set of valid profile
names is not surfaced there. -/
theorem C9_counterexample_silent_fallback :
    getParserV1 "bogus" = defaultParserMeta ∧
    parseResumeV2select "text" (some "bogus") =
      SelectOutcome.err "Parser \"bogus\" not found" ∧
    (["default", "serter", "student"].all
      (fun n => !containsSub "Parser \"bogus\" not found".data n.data)) = true := by
  refine ⟨rfl, rfl, by decide⟩

/-- C9 (amended): for a nonempty requested profile name outside the
registry, only `parseOneResume` both rejects before any parsing and
surfaces every valid profile name in its output; the second registry
variant rejects before parsing but names no valid profile in its
error; and the first variant does not reject at all — it silently
substitutes the default profile. -/
theorem C9_unknown_profile_rejected (n : String)
    (hn : n ≠ "") (hmem : n ∉ ["default", "serter", "student"]) :
    (∃ msgs, parseOneSelect (some n) = .err msgs ∧
      ∀ p ∈ listParsersV1, ∃ m ∈ msgs, containsSub m.data p.name.data = true) ∧
    (∀ text : String, text ≠ "" →
      parseResumeV2select text (some n) =
        .err ("Parser \"" ++ n ++ "\" not found")) ∧
    getParserV1 n = defaultParserMeta := by
  simp only [List.mem_cons, List.not_mem_nil, not_or, or_false] at hmem
  obtain ⟨h1, h2, h3⟩ := hmem
  have e1 : (("default" : String) == n) = false := by
    rw [beq_eq_false_iff_ne]; exact fun h => h1 h.symm
  have e2 : (("serter" : String) == n) = false := by
    rw [beq_eq_false_iff_ne]; exact fun h => h2 h.symm
  have e3 : (("student" : String) == n) = false := by
    rw [beq_eq_false_iff_ne]; exact fun h => h3 h.symm
  have en : (n == "") = false := by
    rw [beq_eq_false_iff_ne]; exact hn
  have hreg : regLookup n = none := by
    simp [regLookup, parsersRegistry, List.find?, e1, e2, e3]
  refine ⟨?_, ?_, ?_⟩
  · have hfind : listParsersV1.find? (fun p => p.name == n) = none := by
      simp [listParsersV1, List.find?, defaultParserMeta, serterParserMeta,
        studentParserMeta, e1, e2, e3]
    have hsel : parseOneSelect (some n) =
        OneOutcome.err
          (("Error: Parser \"" ++ n ++ "\" not found. Available parsers are:") ::
           ["- default (Default Parser)", "- serter (Serter Format Parser)",
            "- student (Modern Student Format Parser)"]) := by
      simp only [parseOneSelect, en, Bool.false_eq_true, if_false, hfind]
      rfl
    refine ⟨_, hsel, ?_⟩
    intro p hp
    simp only [listParsersV1, List.mem_cons, List.not_mem_nil, or_false] at hp
    rcases hp with rfl | rfl | rfl
    · exact ⟨"- default (Default Parser)",
        List.mem_cons_of_mem _ (by decide), by decide⟩
    · exact ⟨"- serter (Serter Format Parser)",
        List.mem_cons_of_mem _ (by decide), by decide⟩
    · exact ⟨"- student (Modern Student Format Parser)",
        List.mem_cons_of_mem _ (by decide), by decide⟩
  · intro text htext
    have et : (text == "") = false := by
      rw [beq_eq_false_iff_ne]; exact htext
    rw [parseResumeV2select, et]
    simp only [Bool.false_eq_true, if_false, en, getParserV2, hreg]
  · rw [getParserV1, hreg]
    rfl

theorem C9_witness :
    ("bogus" : String) ≠ "" ∧
    ("bogus" : String) ∉ ["default", "serter", "student"] ∧
    ((∃ msgs, parseOneSelect (some "bogus") = .err msgs ∧
      ∀ p ∈ listParsersV1, ∃ m ∈ msgs, containsSub m.data p.name.data = true) ∧
    (∀ text : String, text ≠ "" →
      parseResumeV2select text (some "bogus") =
        .err ("Parser \"" ++ "bogus" ++ "\" not found")) ∧
    getParserV1 "bogus" = defaultParserMeta) :=
  ⟨by decide, by decide,
   C9_unknown_profile_rejected "bogus" (by decide) (by decide)⟩

end JSRP
